import Mathlib

/-!
# CoreBot addon pipeline: a shallow embedding

A shallow embedding of the CoreBot (RIKTIGATOMTEN/CoreBot) addon/command
discovery-and-loading pipeline and of the interaction-dispatch registry,
with theorems settling the specification claims about it.

Embedded source files:
* `src/core/utils/fileUtils.ts` (`parseInfoFile`)
* `src/core/setup/addons/validation.ts` (`validateAddonInfo`)
* `src/core/setup/addons/discovery.ts`
  (`discoverModules`, `discoverExtensions`, `discoverAllExtensions`,
   `processModuleDirectory`, `groupByPriority`)
* `src/core/setup/addons/loaders.ts` (`loadAddon`, `loadCommand`)
* `src/core/setup/addons/loader.ts` (`loadModuleTimed`, `loadModulesOfType`)
* `src/core/handlers/interactions/InteractionRegistry.ts`

Modelling conventions:
* JavaScript runtime values flowing through the descriptor records are
  modelled by `JsVal` (string / number / boolean); JS numbers are modelled
  as rationals (no NaN value is ever stored in a descriptor record: the
  parser stores a number only when `Number(value)` is not NaN, modelled by
  `jsNumOpt` returning `some`).
* `Number(string)` is modelled by `jsNumOpt` for decimal notation
  (optional sign, digits, optional fractional part, empty string ↦ 0).
  Exponent/hex/`Infinity` notations are not modelled; such strings are
  treated as NaN.  No claim depends on those notations.
* File system: directories and files are finite lists of absolute,
  normalized segment paths (`FPath`); `path.join` is `joinPath`, which
  normalizes `""`/`"."`/`".."` segments exactly as Node's `path.join`.
* Asynchrony: a priority group is loaded by `Promise.allSettled` and the
  next group starts only after the previous settles.  The observable
  schedule is modelled as an event trace (`LoadEvent`): for each group in
  processing order, first a `beginLoad` event per module, then a `result`
  event per module.  The per-module 30s timeout race and thrown errors are
  modelled by a per-module `LoadOutcome` environment.
* `Array.prototype.sort` with comparator `(a, b) => bKey - aKey` is a
  stable sort by descending key; it is modelled by the stable insertion
  sort `stableSortDesc`.
-/

namespace CoreBot

/-! ## JavaScript values -/

/-- A JavaScript value as it can occur in a parsed `addon.info` record:
a string, a (finite) number, or a boolean. -/
inductive JsVal where
  | vstr (s : String)
  | vnum (q : ℚ)
  | vbool (b : Bool)
deriving DecidableEq, Repr

/-- A parsed descriptor record (`AddonInfo`): key/value assignments in
order.  Later assignments to the same key overwrite earlier ones. -/
abbrev Info := List (String × JsVal)

/-- Reading `info[k]`: the last assignment to `k` wins (JS object
assignment semantics). -/
def getField (info : Info) (k : String) : Option JsVal :=
  info.foldl (fun r kv => if kv.1 = k then some kv.2 else r) none

/-- JS truthiness of a value. -/
def truthy : JsVal → Bool
  | .vstr s => s ≠ ""
  | .vnum q => q ≠ 0
  | .vbool b => b

/-- JS truthiness of a possibly-absent value (`undefined` is falsy). -/
def truthyO : Option JsVal → Bool
  | none => false
  | some v => truthy v

/-! ## Character-level string helpers (JS `trim`, `split`, `join`) -/

/-- JS `String.prototype.trim`: drop whitespace from both ends. -/
def trimChars (l : List Char) : List Char :=
  ((l.dropWhile Char.isWhitespace).reverse.dropWhile Char.isWhitespace).reverse

/-- `s.trim()`. -/
def trimS (s : String) : String := ⟨trimChars s.data⟩

/-- Accumulator-based single-character split (JS `s.split(sep)` for a
one-character separator). -/
def splitChAux (sep : Char) : List Char → List Char → List (List Char)
  | [], cur => [cur.reverse]
  | c :: cs, cur =>
    if c = sep then cur.reverse :: splitChAux sep cs []
    else splitChAux sep cs (c :: cur)

/-- JS `s.split(sep)` for a one-character separator. -/
def splitCh (sep : Char) (s : String) : List String :=
  (splitChAux sep s.data []).map (fun l => ⟨l⟩)

/-- `s.toLowerCase()` (character-wise). -/
def toLowerS (s : String) : String := ⟨s.data.map Char.toLower⟩

/-- `s.startsWith(pre)`. -/
def startsWithS (s pre : String) : Bool := pre.data.isPrefixOf s.data

/-! ## `Number(string)` model -/

/-- Value of a run of decimal digits; `none` if any non-digit occurs. -/
def decDigitsVal (l : List Char) : Option Nat :=
  if l.all Char.isDigit then
    some (l.foldl (fun n c => 10 * n + (c.toNat - 48)) 0)
  else none

/-- Value of an unsigned decimal numeral `digits [. digits]`
(`"10"`, `"1.5"`, `"1."`, `".5"`); `none` when malformed. -/
def numBody (body : List Char) : Option ℚ :=
  let ip := body.takeWhile (fun c => c ≠ '.')
  match body.dropWhile (fun c => c ≠ '.') with
  | [] =>
    if ip = [] then none else (decDigitsVal ip).map (fun n => (n : ℚ))
  | _ :: frac =>
    if ip = [] ∧ frac = [] then none
    else
      match decDigitsVal ip, decDigitsVal frac with
      | some n, some f => some ((n : ℚ) + (f : ℚ) / ((10 : ℚ) ^ frac.length))
      | _, _ => none

/-- Model of JS `Number(s)` restricted to decimal notation: `none` plays
the role of NaN.  `Number("") = 0`; otherwise an optional sign followed by
a decimal numeral. -/
def jsNumOpt (s : String) : Option ℚ :=
  match trimChars s.data with
  | [] => some 0
  | '-' :: body => (numBody body).map (fun q => -q)
  | '+' :: body => numBody body
  | body => numBody body

/-- JS `Number(v)` on an arbitrary value (booleans coerce to 1/0). -/
def jsNumber : JsVal → Option ℚ
  | .vnum q => some q
  | .vbool b => some (if b then 1 else 0)
  | .vstr s => jsNumOpt s

/-- Rendering of a rational; stands in for JS number-to-string conversion.
It is only ever compared against keyword strings (`"true"`, `"addon"`, …),
which it never equals, so the exact format is irrelevant. -/
def ratToString (q : ℚ) : String :=
  if q.den = 1 then toString q.num else toString q.num ++ "/" ++ toString q.den

/-- JS `String(v)`. -/
def jsToStr : JsVal → String
  | .vstr s => s
  | .vbool b => if b then "true" else "false"
  | .vnum q => ratToString q

/-- JS `Array.prototype.join(sep)`. -/
def joinSep (sep : String) : List String → String
  | [] => ""
  | [x] => x
  | x :: y :: xs => x ++ sep ++ joinSep sep (y :: xs)

/-! ## Descriptor parser (`fileUtils.ts`, `parseInfoFile`) -/

/-- Value coercion of `parseInfoFile`: the literal strings
`"true"`/`"false"` (case-insensitive) become booleans for any key; for the
key `priority`, a value with `!isNaN(Number(value))` becomes a number;
anything else stays a (trimmed) string. -/
def coerceValue (trimmedKey value : String) : JsVal :=
  if toLowerS value = "true" then .vbool true
  else if toLowerS value = "false" then .vbool false
  else if trimmedKey = "priority" then
    match jsNumOpt value with
    | some q => .vnum q
    | none => .vstr value
  else .vstr value

/-- One iteration of the `raw.split(/\r?\n/).forEach(line => …)` loop of
`parseInfoFile`: trim the line; skip empty lines and `#` comments; split
on `':'`; skip when the part before the first colon is empty; rejoin the
remainder with `':'` (so only the first colon splits); trim key and value;
assign the coerced value. -/
def parseLine (info : Info) (rawLine : String) : Info :=
  let line := trimS rawLine
  if line = "" then info
  else if startsWithS line "#" then info
  else
    match splitCh ':' line with
    | [] => info
    | key :: rest =>
      if key = "" then info
      else
        let value := trimS (joinSep ":" rest)
        let trimmedKey := trimS key
        info ++ [(trimmedKey, coerceValue trimmedKey value)]

/-- `parseInfoFile` on the file's content, given as its list of lines
(the `raw.split(/\r?\n/)` decomposition). -/
def parseInfo (lines : List String) : Info :=
  lines.foldl parseLine []

/-! ## Descriptor validation (`validation.ts`, `validateAddonInfo`) -/

/-- `!info.author || typeof info.author !== 'string' || info.author.trim() === ''`. -/
def authorBad (info : Info) : Bool :=
  match getField info "author" with
  | none => true
  | some v => !truthy v || (match v with | .vstr s => trimS s = "" | _ => true)

/-- `path.isAbsolute` (POSIX). -/
def isAbsolute (s : String) : Bool := startsWithS s "/"

/-- Per-path validation of a declared (truthy) file-path value: it must be
a string and must be relative. -/
def filePathErrors (v : JsVal) : List String :=
  match v with
  | .vstr s => if isAbsolute s then ["Invalid file path: must be relative, not absolute"] else []
  | _ => ["Invalid file path: must be a string"]

/-- `validateAddonInfo`: the list of validation errors for a parsed
descriptor (interpolated field values are elided from the message
strings; only emptiness of the list is ever observed). -/
def validateAddonInfo (info : Info) : List String :=
  (if authorBad info then
     ["Missing or invalid \"author\" field (must be non-empty string)"] else [])
  ++ (if !truthyO (getField info "addonfile") && !truthyO (getField info "commandfile")
        && !truthyO (getField info "mainfile") then
       ["Must specify at least one of: addonfile, commandfile, mainfile"] else [])
  ++ (match getField info "priority" with
      | none => []
      | some v =>
        match jsNumber v with
        | none => ["Invalid \"priority\" field (must be a number)"]
        | some q =>
          if q < 0 then ["Invalid \"priority\" field (must be >= 0)"]
          else if q.den ≠ 1 then ["Invalid \"priority\" field (must be an integer)"]
          else [])
  ++ (match getField info "enabled" with
      | none => []
      | some v =>
        if toLowerS (jsToStr v) = "true" ∨ toLowerS (jsToStr v) = "false" then []
        else ["Invalid \"enabled\" field (must be boolean true/false)"])
  ++ (match getField info "version" with
      | none => []
      | some (.vstr _) => []   -- format mismatches are only a logged warning
      | some _ => ["Invalid \"version\" field: must be a string"])
  ++ (match getField info "name" with
      | none => []
      | some (.vstr s) => if trimS s = "" then ["Invalid \"name\" field: must be non-empty string"] else []
      | some _ => ["Invalid \"name\" field: must be non-empty string"])
  ++ ((([getField info "addonfile", getField info "commandfile", getField info "mainfile",
         getField info "eventfile", getField info "intentconfig"].filterMap id).filter truthy).map
        filePathErrors).flatten

/-! ## File system and paths -/

/-- An absolute, normalized path, as its list of segments
(no `""`, `"."`, or `".."` segments). -/
abbrev FPath := List String

/-- One step of Node path normalization. -/
def normSeg (p : FPath) (seg : String) : FPath :=
  if seg = "" ∨ seg = "." then p
  else if seg = ".." then p.dropLast
  else p ++ [seg]

/-- `path.join(p, s)` where `s` may contain `/`-separated segments
including `"."` and `".."`. -/
def joinPath (p : FPath) (s : String) : FPath :=
  (splitCh '/' s).foldl normSeg p

/-- The file system visible to discovery: the set of directories, and the
files with their content given as a list of lines.  Paths are normalized
segment lists. -/
structure FileSys where
  dirs : List FPath
  files : List (FPath × List String)
deriving Repr

/-- `fs.existsSync` (directory or file). -/
def FileSys.existsPath (fs : FileSys) (p : FPath) : Bool :=
  fs.dirs.contains p || (fs.files.map Prod.fst).contains p

/-- `fs.readdirSync(p, { withFileTypes: true }).filter(d => d.isDirectory())`:
the names of the immediate subdirectories of `p`, in `fs.dirs` order. -/
def FileSys.readDir (fs : FileSys) (p : FPath) : List String :=
  fs.dirs.filterMap (fun d => if d ≠ [] ∧ d.dropLast = p then d.getLast? else none)

/-- Content of a file, if present (first match). -/
def FileSys.readFile (fs : FileSys) (p : FPath) : Option (List String) :=
  (fs.files.find? (fun f => f.1 = p)).map (·.2)

/-- `parseInfoFile(path)`: `null` (here `none`) exactly when the file
cannot be read. -/
def parseInfoFileFS (fs : FileSys) (p : FPath) : Option Info :=
  (fs.readFile p).map parseInfo

/-! ## Module discovery (`discovery.ts`) -/

/-- `ModuleType`. -/
inductive ModuleType where
  | addon
  | command
deriving DecidableEq, Repr

/-- The string value of a `ModuleType` (TS models it as the string union
`'addon' | 'command'`). -/
def ModuleType.str : ModuleType → String
  | .addon => "addon"
  | .command => "command"

/-- `DiscoveredModule`. -/
structure DiscoveredModule where
  dirName : String
  dirPath : FPath
  info : Info
  filePath : FPath
  creator : Option String
  type : ModuleType
  parentModule : Option String := none
  isExtension : Bool := false
deriving DecidableEq, Repr

/-- `processModuleDirectory`: parse the descriptor, validate it, apply the
`enabled` / legacy `type` / entry-file policy, and build the
`DiscoveredModule`, or return `none` ("excluded from discovery"). -/
def processModuleDirectory (fs : FileSys) (dirName : String) (dirPath infoPath : FPath)
    (type : ModuleType) (creator : Option String := none)
    (parentModule : Option String := none) : Option DiscoveredModule :=
  match parseInfoFileFS fs infoPath with
  | none => none
  | some info =>
    if (validateAddonInfo info).length > 0 then none
    else if getField info "enabled" = some (.vbool false) then none
    else
      -- deprecated `type` field: `originalType ? String(originalType).toLowerCase() : undefined`
      let infoType : Option String :=
        match getField info "type" with
        | some v => if truthy v then some (toLowerS (jsToStr v)) else none
        | none => none
      if (match infoType with | some t => decide (t ≠ type.str) | none => false) then none
      else
        let fileCandidate : Option JsVal :=
          match type with
          | .command =>
            if truthyO (getField info "commandfile") then getField info "commandfile" else none
          | .addon =>
            if truthyO (getField info "addonfile") then getField info "addonfile"
            else if truthyO (getField info "mainfile") then getField info "mainfile"
            else none
        match fileCandidate with
        | none => none
        | some fc =>
          let filePath := joinPath dirPath (jsToStr fc)
          if fs.existsPath filePath = false then none
          else
            match parentModule with
            | some p =>
              some { dirName := dirName, dirPath := dirPath, info := info,
                     filePath := filePath, creator := creator, type := type,
                     parentModule := some p, isExtension := true }
            | none =>
              some { dirName := dirName, dirPath := dirPath, info := info,
                     filePath := filePath, creator := creator, type := type }

/-- The display label `creator ? creator/dirName : dirName` of a parent
module, used as the `parentModule` tag of its extensions. -/
def parentLabelOf (creator : Option String) (dirName : String) : String :=
  match creator with
  | some c => c ++ "/" ++ dirName
  | none => dirName

/-- `discoverExtensions(parentModule, type)`: scan the parent's declared
`extensions` directory for immediate subdirectories with their own
`addon.info`. -/
def discoverExtensions (fs : FileSys) (parent : DiscoveredModule) (type : ModuleType) :
    List DiscoveredModule :=
  match getField parent.info "extensions" with
  | some (.vstr s) =>
    if s = "" then []
    else
      let extensionsPath := joinPath parent.dirPath s
      if fs.existsPath extensionsPath = false then []
      else
        (fs.readDir extensionsPath).filterMap (fun name =>
          let extDirPath := extensionsPath ++ [name]
          let extInfoPath := extDirPath ++ ["addon.info"]
          if fs.existsPath extInfoPath = false then none
          else
            let parentLabel := parentLabelOf parent.creator parent.dirName
            match processModuleDirectory fs name extDirPath extInfoPath type
                parent.creator (some parentLabel) with
            | some m => some { m with isExtension := true, parentModule := some parentLabel }
            | none => none)
  | _ => []

/-- State threaded through `discoverAllExtensions`: the processed-paths
set and the extensions found so far. -/
structure ScanState where
  processed : List FPath
  found : List DiscoveredModule
deriving Repr

/-- Body of the `for (const extDir of extDirs)` loop of
`discoverAllExtensions`: dedup via the processed-paths set, then process
the extension directory. -/
def scanExtDir (fs : FileSys) (type : ModuleType) (creator : Option String)
    (dirPath extensionsPath : FPath) (st : ScanState) (name : String) : ScanState :=
  let extDirPath := extensionsPath ++ [name]
  if st.processed.contains extDirPath then st
  else
    let st1 : ScanState := { st with processed := st.processed ++ [extDirPath] }
    let extInfoPath := extDirPath ++ ["addon.info"]
    if fs.existsPath extInfoPath = false then st1
    else
      let parentDirName := (dirPath.getLast?).getD ""
      let parentLabel := parentLabelOf creator parentDirName
      match processModuleDirectory fs name extDirPath extInfoPath type creator
          (some parentLabel) with
      | some m =>
        { st1 with found := st1.found ++ [{ m with isExtension := true, parentModule := some parentLabel }] }
      | none => st1

/-- Body of the `for (const { path: dirPath, creator } of dirsToCheck)`
loop of `discoverAllExtensions`. -/
def scanParentDir (fs : FileSys) (type : ModuleType) (st : ScanState)
    (entry : FPath × Option String) : ScanState :=
  let dirPath := entry.1
  let creator := entry.2
  let infoPath := dirPath ++ ["addon.info"]
  if fs.existsPath infoPath = false then st
  else
    match parseInfoFileFS fs infoPath with
    | none => st
    | some info =>
      match getField info "extensions" with
      | some (.vstr s) =>
        if s = "" then st
        else
          let extensionsPath := joinPath dirPath s
          if fs.existsPath extensionsPath = false then st
          else
            (fs.readDir extensionsPath).foldl
              (scanExtDir fs type creator dirPath extensionsPath) st
      | _ => st

/-- `discoverAllExtensions(addonsRoot, type, processedPaths)`: the
full-tree extension rescan.  Root-level directories and their immediate
subdirectories are checked for an `extensions` declaration, independently
of whether they were accepted as modules for the current kind. -/
def discoverAllExtensions (fs : FileSys) (root : FPath) (type : ModuleType)
    (processed : List FPath) : ScanState :=
  let entries := fs.readDir root
  let dirsToCheck : List (FPath × Option String) :=
    entries.flatMap (fun name =>
      (root ++ [name], (none : Option String)) ::
        (fs.readDir (root ++ [name])).map (fun sub => (root ++ [name] ++ [sub], some name)))
  dirsToCheck.foldl (scanParentDir fs type) { processed := processed, found := [] }

/-- State of the main `discoverModules` loop: the discovered modules and
the processed-paths set. -/
structure DiscState where
  discovered : List DiscoveredModule
  processed : List FPath
deriving Repr

/-- Shared body of both branches of the main discovery loop: process one
candidate module directory, record it and its per-parent extensions. -/
def discoverOne (fs : FileSys) (type : ModuleType) (st : DiscState) (dirName : String)
    (dirPath infoPath : FPath) (creator : Option String) : DiscState :=
  match processModuleDirectory fs dirName dirPath infoPath type creator none with
  | some m =>
    let exts := discoverExtensions fs m type
    { discovered := st.discovered ++ [m] ++ exts,
      processed := st.processed ++ [m.dirPath] ++ exts.map (·.dirPath) }
  | none => st

/-- Body of the `for (const entry of entries)` loop of `discoverModules`:
a root-level directory with its own `addon.info` is a module; otherwise
its immediate subdirectories are creator-nested candidates. -/
def discoverEntry (fs : FileSys) (type : ModuleType) (root : FPath) (st : DiscState)
    (name : String) : DiscState :=
  let entryPath := root ++ [name]
  let infoPath := entryPath ++ ["addon.info"]
  if fs.existsPath infoPath then discoverOne fs type st name entryPath infoPath none
  else
    (fs.readDir entryPath).foldl (fun st sub =>
      let subDirPath := entryPath ++ [sub]
      let subInfoPath := subDirPath ++ ["addon.info"]
      if fs.existsPath subInfoPath then
        discoverOne fs type st sub subDirPath subInfoPath (some name)
      else st) st

/-- The main pass of `discoverModules` (everything before the full-tree
extension rescan). -/
def mainDiscovery (fs : FileSys) (root : FPath) (type : ModuleType) : DiscState :=
  (fs.readDir root).foldl (discoverEntry fs type root) { discovered := [], processed := [] }

/-- `discoverModules(addonsRoot, type)`. -/
def discoverModules (fs : FileSys) (root : FPath) (type : ModuleType) :
    List DiscoveredModule :=
  let st := mainDiscovery fs root type
  st.discovered ++ (discoverAllExtensions fs root type st.processed).found

/-! ## Interaction registry (`InteractionRegistry.ts`) -/

/-- `InteractionType`. -/
inductive InteractionType where
  | button
  | modal
  | stringSelect
  | userSelect
  | roleSelect
  | mentionableSelect
  | channelSelect
deriving DecidableEq, Repr

/-- The string value of an `InteractionType`. -/
def InteractionType.str : InteractionType → String
  | .button => "button"
  | .modal => "modal"
  | .stringSelect => "stringSelect"
  | .userSelect => "userSelect"
  | .roleSelect => "roleSelect"
  | .mentionableSelect => "mentionableSelect"
  | .channelSelect => "channelSelect"

/-- `InteractionMatchType` (`'exact' | 'prefix' | 'regex'`; the `prefix`
variant is named `prefixType` here). -/
inductive MatchType where
  | exact
  | prefixType
  | regex
deriving DecidableEq, Repr

/-- `InteractionRegistration`.  The handler function is represented by an
opaque identifier `handlerId`; its runtime behaviour is supplied
separately when dispatching.  The registration's `priority` holds the
numeric value of the JS priority (the comparator `b.priority - a.priority`
observes only this numeric coercion). -/
structure Registration where
  type : InteractionType
  customId : String
  matchType : MatchType
  handlerId : Nat
  priority : ℚ
  source : String
deriving DecidableEq, Repr

/-- The registry's `handlers` map: for every interaction type, its ordered
registration list (all seven lists start empty). -/
def IRegistry := InteractionType → List Registration

/-- The freshly constructed registry. -/
def IRegistry.empty : IRegistry := fun _ => []

/-- `h.customId === customId && h.matchType === 'exact'`: the predicate
used by both `InteractionRegistry.has` and `InteractionRegistry.get`. -/
def exactPred (customId : String) (h : Registration) : Bool :=
  decide (h.customId = customId ∧ h.matchType = MatchType.exact)

/-- `InteractionRegistry.get(customId, type)`: the first registration of
the type whose `customId` equals the query and whose `matchType` is
`'exact'`. -/
def getReg (st : IRegistry) (customId : String) (ty : InteractionType) :
    Option Registration :=
  (st ty).find? (exactPred customId)

/-- `InteractionRegistry.has(customId, type)`. -/
def hasReg (st : IRegistry) (customId : String) (ty : InteractionType) : Bool :=
  (getReg st customId ty).isSome

/-- The registry's sort after every insertion:
`typeHandlers.sort((a, b) => b.priority - a.priority)` is a stable sort by
descending priority, modelled by the (stable) insertion sort on the
relation `a.priority ≥ b.priority`. -/
def sortByPriorityDesc (l : List Registration) : List Registration :=
  l.insertionSort (fun a b => a.priority ≥ b.priority)

/-- `InteractionRegistry.register`: push the registration onto its type's
list, then re-sort that list by descending priority. -/
def register (st : IRegistry) (r : Registration) : IRegistry :=
  fun t => if t = r.type then sortByPriorityDesc (st r.type ++ [r]) else st t

/-- `InteractionRegistry.registerMany`. -/
def registerMany (st : IRegistry) (rs : List Registration) : IRegistry :=
  rs.foldl register st

/-- Number of exact-match registrations for a (kind, pattern) pair. -/
def countExact (st : IRegistry) (ty : InteractionType) (customId : String) : Nat :=
  (st ty).countP (exactPred customId)

/-! ### Dispatch (`InteractionRegistry.handle` / `matches`) -/

/-- Outcome of invoking one handler on one event: it returned a truthy
"handled", returned falsy, or threw. -/
inductive HOutcome where
  | handled
  | declined
  | threw
deriving DecidableEq, Repr

/-- `InteractionRegistry.matches(customId, pattern, matchType)`.
`regexSem` models `new RegExp(pattern)` followed by `.test`: `none` is a
compile failure (caught; that registration is treated as non-matching). -/
def matchesM (regexSem : String → Option (String → Bool))
    (customId pattern : String) : MatchType → Bool
  | .exact => customId = pattern
  | .prefixType => startsWithS customId pattern
  | .regex =>
    match regexSem pattern with
    | some test => test customId
    | none => false

/-- The `for (const registration of handlers)` loop of
`InteractionRegistry.handle`: try registrations in list order; on a match
invoke the handler (`beh`); a truthy return stops with `true`; a falsy
return or a throw continues with the next candidate; when the list is
exhausted, report `false` ("unhandled"). -/
def handleList (regexSem : String → Option (String → Bool)) (beh : Nat → HOutcome)
    (customId : String) : List Registration → Bool
  | [] => false
  | r :: rs =>
    if matchesM regexSem customId r.customId r.matchType then
      match beh r.handlerId with
      | .handled => true
      | .declined => handleList regexSem beh customId rs
      | .threw => handleList regexSem beh customId rs
    else handleList regexSem beh customId rs

/-- `InteractionRegistry.handle` for an interaction of a recognized kind
`ty` carrying identifier `customId`. -/
def handle (st : IRegistry) (regexSem : String → Option (String → Bool))
    (beh : Nat → HOutcome) (ty : InteractionType) (customId : String) : Bool :=
  handleList regexSem beh customId (st ty)

/-! ## Module loaders (`loaders.ts`) -/

/-- A handler declaration inside a module's `interactions` array, before
the loader stamps it with the module's priority and display name. -/
structure RawHandler where
  type : InteractionType
  customId : String
  matchType : MatchType
  handlerId : Nat
deriving DecidableEq, Repr

/-- `{ ...handler, priority, source }`. -/
def stamp (priority : ℚ) (source : String) (h : RawHandler) : Registration :=
  { type := h.type, customId := h.customId, matchType := h.matchType,
    handlerId := h.handlerId, priority := priority, source := source }

/-- Numeric value of `module.info.priority ?? 0` (discovered modules never
carry a NaN-valued priority, since validation rejects them). -/
def modulePriority (m : DiscoveredModule) : ℚ :=
  match getField m.info "priority" with
  | none => 0
  | some v => (jsNumber v).getD 0

/-- `module.creator ? `creator/name` : name` with
`name = module.info.name || module.dirName`. -/
def moduleNameOf (m : DiscoveredModule) : String :=
  let base :=
    match getField m.info "name" with
    | some v => if truthy v then jsToStr v else m.dirName
    | none => m.dirName
  match m.creator with
  | some c => c ++ "/" ++ base
  | none => base

/-- `module.isExtension ? `parentModule/moduleName` : moduleName`. -/
def displayNameOf (m : DiscoveredModule) : String :=
  if m.isExtension then (m.parentModule.getD "undefined") ++ "/" ++ moduleNameOf m
  else moduleNameOf m

/-- The interaction-registration step shared by `loadAddon` and
`loadCommand`: stamp the declared handlers with the module's priority and
display name; check **every** handler against the registry for an existing
exact-match entry with the same `(customId, type)` **before inserting
any** of them; throw on the first collision, otherwise `registerMany`. -/
def loadBatch (st : IRegistry) (priority : ℚ) (src : String)
    (inters : List RawHandler) : Except String IRegistry :=
  let handlersToRegister := inters.map (stamp priority src)
  match handlersToRegister.find? (fun h => (getReg st h.customId h.type).isSome) with
  | some h =>
    .error ("Interaction conflict: " ++ h.type.str ++ ":" ++ h.customId
      ++ " already registered by "
      ++ (match getReg st h.customId h.type with | some ex => ex.source | none => "unknown"))
  | none => .ok (registerMany st handlersToRegister)

/-- The imported shape of an addon module's default export:
whether `default.execute` exists, whether `execute(client)` throws, and
the optional `interactions` array. -/
structure AddonDecl where
  hasExecute : Bool
  execError : Option String
  interactions : Option (List RawHandler)
deriving Repr

/-- `LoadResult` (optional TS fields are `Option`s; `time` is wall-clock
and modelled as 0). -/
structure LoadResult where
  name : String
  success : Bool
  time : Nat := 0
  commandCount : Option Nat := none
  interactionCount : Nat
  error : Option String := none
  messages : Option (List String) := none
  skipped : Option Bool := none
deriving DecidableEq, Repr

/-- `loadAddon(client, module)` acting on the interaction registry:
`.error` models a throw (missing default export / execute, a throw from
`execute`, or an interaction conflict). -/
def loadAddon (st : IRegistry) (m : DiscoveredModule) (decl : AddonDecl) :
    Except String (IRegistry × LoadResult) :=
  let moduleName := moduleNameOf m
  let displayName := displayNameOf m
  if decl.hasExecute = false then .error "Missing default export or execute function"
  else
    match decl.execError with
    | some e => .error e
    | none =>
      match decl.interactions with
      | some inters =>
        match loadBatch st (modulePriority m) displayName inters with
        | .error e => .error e
        | .ok st' =>
          .ok (st', { name := moduleName, success := true, time := 0,
                      interactionCount := inters.length })
      | none =>
        .ok (st, { name := moduleName, success := true, time := 0, interactionCount := 0 })

/-- The catch-all of `loadModuleTimed`: a thrown error becomes a failed
`LoadResult` carrying the error's message. -/
def catchResult (m : DiscoveredModule) (msg : String) : LoadResult :=
  { name := moduleNameOf m, success := false, time := 0, commandCount := some 0,
    interactionCount := 0, error := some msg }

/-- One addon load as seen by the pipeline: `loadModuleTimed` catches any
throw from `loadAddon`, so the registry is left unchanged and a failed
`LoadResult` is produced instead. -/
def pipelineAddonStep (st : IRegistry) (m : DiscoveredModule) (decl : AddonDecl) :
    IRegistry × LoadResult :=
  match loadAddon st m decl with
  | .ok (st', r) => (st', r)
  | .error e => (st, catchResult m e)

/-- Registry states reachable through the loading pipeline: starting
empty, each module load registers one checked batch of handlers (failed
loads leave the registry unchanged, so only `.ok` steps change state). -/
inductive ReachableI : IRegistry → Prop where
  | empty : ReachableI IRegistry.empty
  | stepOk {st st' : IRegistry} (priority : ℚ) (src : String) (batch : List RawHandler) :
      ReachableI st → loadBatch st priority src batch = .ok st' → ReachableI st'

/-! ## Command loader (`loaders.ts`, `loadCommand`) -/

/-- One command definition in a command module's default export, after the
shape checks `cmd?.data && typeof cmd.execute === 'function'` and
`cmd.data instanceof SlashCommandBuilder`.  A well-formed definition
carries an opaque identity `id`, its command name, and its optional
`interactions` array. -/
inductive CmdDef where
  | invalidShape
  | badBuilder
  | valid (id : Nat) (name : String) (interactions : Option (List RawHandler))
deriving DecidableEq, Repr

/-- An entry of `client.commands` (the Command Table): the registered
command object (identified by `id` and `name`) together with the owning
module's descriptor (`cmd.info = module.info`). -/
structure CmdEntry where
  id : Nat
  name : String
  info : Info
deriving DecidableEq, Repr

/-- The Command Table (`client.commands`, a `Collection` keyed by command
name). -/
abbrev CmdTable := List (String × CmdEntry)

/-- `client.commands.get(name)` / `.has(name)`. -/
def tableGet (t : CmdTable) (n : String) : Option CmdEntry :=
  (t.find? (fun e => e.1 = n)).map (·.2)

/-- `client.commands.set(name, cmd)`: replace the entry if the key is
present, otherwise append. -/
def tableSet (t : CmdTable) (n : String) (e : CmdEntry) : CmdTable :=
  if (t.find? (fun kv => kv.1 = n)).isSome then
    t.map (fun kv => if kv.1 = n then (n, e) else kv)
  else t ++ [(n, e)]

/-- `existing?.info?.name || 'unknown'`: the display name of the module
owning an existing table entry, as used in the conflict warning log. -/
def existingSource (e : Option CmdEntry) : String :=
  match e with
  | some e =>
    match getField e.info "name" with
    | some v => if truthy v then jsToStr v else "unknown"
    | none => "unknown"
  | none => "unknown"

/-- State of the `for (const cmd of defs)` loop of `loadCommand`.
`thrown` records a pending interaction-conflict throw: the loop is
abandoned but mutations already made to the table and the registry
persist. -/
structure CmdLoadState where
  table : CmdTable
  ireg : IRegistry
  commandCount : Nat := 0
  interactionCount : Nat := 0
  messages : List String := []
  skippedCommands : List String := []
  warns : List String := []
  thrown : Option String := none

/-- The body of one `for (const cmd of defs)` iteration for a well-formed
command definition: a name conflict records a skip (and a warning log line
naming the existing registrant); otherwise the command is inserted and its
interaction batch is conflict-checked and registered. -/
def loadCommandValidStep (m : DiscoveredModule) (st : CmdLoadState) (id : Nat)
    (name : String) (inters : Option (List RawHandler)) : CmdLoadState :=
  match tableGet st.table name with
  | some existing =>
    { st with
      skippedCommands := st.skippedCommands ++ [name],
      warns := st.warns ++ ["Command conflict: \"" ++ name ++ "\" already registered by "
        ++ existingSource (some existing) ++ ". Skipping duplicate from " ++ moduleNameOf m] }
  | none =>
    let st1 := { st with
      table := tableSet st.table name { id := id, name := name, info := m.info },
      commandCount := st.commandCount + 1 }
    match inters with
    | some hs =>
      match loadBatch st1.ireg (modulePriority m) (displayNameOf m) hs with
      | .ok ireg' =>
        { st1 with ireg := ireg', interactionCount := st1.interactionCount + hs.length }
      | .error e => { st1 with thrown := some e }
    | none => st1

/-- One iteration of the `for (const cmd of defs)` loop of `loadCommand`:
malformed definitions push a message; well-formed ones run
`loadCommandValidStep`. -/
def loadCommandDefStep (m : DiscoveredModule) (st : CmdLoadState) (cmd : CmdDef) :
    CmdLoadState :=
  if st.thrown.isSome then st
  else
    match cmd with
    | .invalidShape =>
      { st with messages := st.messages ++ ["Invalid command structure: missing data or execute function"] }
    | .badBuilder =>
      { st with messages := st.messages ++ ["Command does not contain valid SlashCommandBuilder data"] }
    | .valid id name inters => loadCommandValidStep m st id name inters

/-- `loadCommand(client, module)`: `defs = none` models a missing default
export; otherwise the definition list (a single non-array export is the
one-element list).  Returns the final table and registry (mutations made
before a throw persist) and either the module's `LoadResult` or the
thrown error. -/
def loadCommand (table : CmdTable) (ireg : IRegistry) (m : DiscoveredModule)
    (defs : Option (List CmdDef)) : (CmdTable × IRegistry) × Except String LoadResult :=
  match defs with
  | none => ((table, ireg), .error "Missing default export")
  | some defs =>
    let fin := defs.foldl (loadCommandDefStep m) { table := table, ireg := ireg }
    ((fin.table, fin.ireg),
      match fin.thrown with
      | some e => .error e
      | none =>
        if fin.commandCount = 0 ∧ fin.skippedCommands ≠ [] then
          .ok { name := moduleNameOf m, success := false, time := 0,
                interactionCount := 0, commandCount := some 0, skipped := some true,
                error := some ("All commands skipped due to conflicts: "
                  ++ joinSep ", " fin.skippedCommands) }
        else if fin.commandCount = 0 then
          .error (if fin.messages ≠ [] then
              "No valid commands found in module: " ++ joinSep "; " fin.messages
            else "No valid commands found in module")
        else
          .ok { name := displayNameOf m, success := true, time := 0,
                commandCount := some fin.commandCount,
                interactionCount := fin.interactionCount,
                messages :=
                  (let withSkip :=
                    if fin.skippedCommands ≠ [] then
                      fin.messages ++ ["Skipped duplicate commands: "
                        ++ joinSep ", " fin.skippedCommands]
                    else fin.messages
                   if withSkip = [] then none else some withSkip) })

/-! ## Priority grouping and the timed loader (`discovery.ts`
`groupByPriority`, `loader.ts` `loadModuleTimed` / `loadModulesOfType`) -/

/-- The raw JS value `module.info.priority ?? 0`, used as the `Map` key in
`groupByPriority`. -/
def rawPriorityKey (m : DiscoveredModule) : JsVal :=
  (getField m.info "priority").getD (.vnum 0)

/-- Numeric value of a priority key, as observed by the sort comparators
`(a, b) => bKey - aKey`. -/
def keyNum (k : JsVal) : ℚ := (jsNumber k).getD 0

/-- The numeric priority of a module (missing priority = 0). -/
def priorityNum (m : DiscoveredModule) : ℚ := keyNum (rawPriorityKey m)

/-- JS `Array.prototype.sort` with comparator `(a, b) => key b - key a`:
a stable sort by descending key, modelled by insertion sort on
`key a ≥ key b`. -/
def stableSortDesc (key : α → ℚ) (l : List α) : List α :=
  l.insertionSort (fun a b => key a ≥ key b)

/-- `groups.get(priority).push(module)`, or insertion of a fresh key at
the end (JS `Map` insertion order). -/
def addToGroups (groups : List (JsVal × List DiscoveredModule)) (k : JsVal)
    (m : DiscoveredModule) : List (JsVal × List DiscoveredModule) :=
  match groups with
  | [] => [(k, [m])]
  | (q, g) :: rest =>
    if q = k then (q, g ++ [m]) :: rest else (q, g) :: addToGroups rest k m

/-- `groupByPriority(modules)`: sort the module list by descending numeric
priority (stable), then group it into a `Map` keyed by the raw
`priority ?? 0` value, in insertion order. -/
def groupByPriority (ms : List DiscoveredModule) : List (JsVal × List DiscoveredModule) :=
  let sorted := stableSortDesc priorityNum ms
  sorted.foldl (fun gs m => addToGroups gs (rawPriorityKey m) m) []

/-- `Array.from(priorityGroups.entries()).sort((a, b) => b[0] - a[0])`:
the group list in processing order. -/
def sortedGroups (ms : List DiscoveredModule) : List (JsVal × List DiscoveredModule) :=
  stableSortDesc (fun g => keyNum g.1) (groupByPriority ms)

/-- The outcome of one module's timed load, as decided by the race inside
`loadModuleTimed`: the load promise fulfilled with a result, the load
promise rejected (a throw during import/execute/registration), or the
30-second timeout won the race. -/
inductive LoadOutcome where
  | ok (r : LoadResult)
  | threw (msg : String)
  | timedOut

/-- `loadModuleTimed(client, module, loader)`: a fulfilled load passes its
result through; a rejection — a thrown error, or the timeout promise's
"(module type) loading timeout (30s)" error — is caught and becomes a
failed `LoadResult` carrying the error message.  Never throws. -/
def loadModuleTimed (env : DiscoveredModule → LoadOutcome) (m : DiscoveredModule) :
    LoadResult :=
  match env m with
  | .ok r => r
  | .threw msg => catchResult m msg
  | .timedOut => catchResult m (m.type.str ++ " loading timeout (30s)")

/-- The modules in the order their loads are started: group after group in
descending priority, each group in its grouped order. -/
def processOrder (ms : List DiscoveredModule) : List DiscoveredModule :=
  (sortedGroups ms).flatMap (·.2)

/-- An observable event of the loading schedule. -/
inductive LoadEvent where
  | beginLoad (m : DiscoveredModule)
  | result (m : DiscoveredModule) (r : LoadResult)
deriving DecidableEq

/-- The loading schedule of `loadModulesOfType`: for each group in
processing order, every module's load is started
(`group.map(module => loadModuleTimed(...))`), and then
`await Promise.allSettled` produces every module's `LoadResult` before the
next group's first load starts. -/
def loadTrace (env : DiscoveredModule → LoadOutcome) (ms : List DiscoveredModule) :
    List LoadEvent :=
  (sortedGroups ms).flatMap (fun g =>
    g.2.map LoadEvent.beginLoad ++ g.2.map (fun m => .result m (loadModuleTimed env m)))

/-- The `LoadResult` list returned by `loadModulesOfType` (every
`loadModuleTimed` promise fulfills, so `allSettled` pushes the fulfilled
value for every module of every group, in order). -/
def loadModulesOfType (env : DiscoveredModule → LoadOutcome)
    (ms : List DiscoveredModule) : List LoadResult :=
  (sortedGroups ms).flatMap (fun g => g.2.map (loadModuleTimed env))

/-! # Supporting lemmas -/

/-! ## Split / join round trip -/

theorem string_append_data (a b : String) : (a ++ b).data = a.data ++ b.data := rfl

theorem splitChAux_ne_nil (sep : Char) (cs cur : List Char) :
    splitChAux sep cs cur ≠ [] := by
  induction cs generalizing cur with
  | nil => simp [splitChAux]
  | cons c cs ih =>
    simp only [splitChAux]
    split
    · simp
    · exact ih _

/-- Splitting a list that starts with a separator-free prefix: the prefix
lands in the first chunk. -/
theorem splitChAux_append_sep (sep : Char) (xs ys cur : List Char) (h : sep ∉ xs) :
    splitChAux sep (xs ++ sep :: ys) cur = (cur.reverse ++ xs) :: splitChAux sep ys [] := by
  induction xs generalizing cur with
  | nil => simp [splitChAux]
  | cons c cs ih =>
    have hc : c ≠ sep := fun hcs => h (hcs ▸ List.mem_cons_self c cs)
    have hcs' : sep ∉ cs := fun hm => h (List.mem_cons_of_mem c hm)
    simp only [List.cons_append, splitChAux, if_neg hc]
    rw [show (cs.append (sep :: ys)) = cs ++ sep :: ys from rfl, ih _ hcs']
    simp

theorem joinSep_cons_of_ne_nil (sep : String) (x : String) (xs : List String)
    (h : xs ≠ []) : joinSep sep (x :: xs) = x ++ sep ++ joinSep sep xs := by
  cases xs with
  | nil => exact absurd rfl h
  | cons y ys => rfl

/-- Rejoining the chunks of a single-character split restores the input
(the split loses no text). -/
theorem joinSep_splitChAux (sep : Char) (cs cur : List Char) :
    joinSep ⟨[sep]⟩ ((splitChAux sep cs cur).map (fun l => ⟨l⟩)) = ⟨cur.reverse ++ cs⟩ := by
  induction cs generalizing cur with
  | nil => simp [splitChAux, joinSep]
  | cons c cs ih =>
    simp only [splitChAux]
    by_cases hc : c = sep
    · rw [if_pos hc, hc, List.map_cons]
      rw [joinSep_cons_of_ne_nil _ _ _
        (by simpa using splitChAux_ne_nil sep cs [])]
      rw [ih ([] : List Char)]
      rw [show ((⟨cur.reverse⟩ : String) ++ (⟨[sep]⟩ : String)) = (⟨cur.reverse ++ [sep]⟩ : String) from rfl]
      rw [show ((⟨cur.reverse ++ [sep]⟩ : String) ++ (⟨([] : List Char).reverse ++ cs⟩ : String))
            = (⟨(cur.reverse ++ [sep]) ++ (([] : List Char).reverse ++ cs)⟩ : String) from rfl]
      apply congrArg String.mk
      simp
    · rw [if_neg hc, ih (c :: cur)]
      apply congrArg String.mk
      simp

theorem string_eta (s : String) : String.mk s.data = s := rfl

theorem colon_data : (":" : String).data = [':'] := rfl

/-- A line of the form `key:value` with no colon inside `key` is split at
that first colon: the key is `key` and the value is all of `value`,
colons included. -/
theorem parseLine_split (info : Info) (raw k v : String)
    (hk : ':' ∉ k.data) (hk0 : k ≠ "") (hline : trimS raw = k ++ ":" ++ v)
    (hcomment : startsWithS (k ++ ":" ++ v) "#" = false) :
    parseLine info raw = info ++ [(trimS k, coerceValue (trimS k) (trimS v))] := by
  have hdata : (k ++ ":" ++ v).data = k.data ++ ':' :: v.data := by
    rw [string_append_data, string_append_data, colon_data, List.append_assoc,
      List.singleton_append]
  have hne : (k ++ ":" ++ v) ≠ "" := by
    intro he
    have h0 : (k ++ ":" ++ v).data = [] := by rw [he]
    rw [hdata] at h0
    exact (List.append_ne_nil_of_right_ne_nil k.data (List.cons_ne_nil _ _)) h0
  have hsplit : splitCh ':' (k ++ ":" ++ v)
      = k :: (splitChAux ':' v.data []).map (fun l => ⟨l⟩) := by
    unfold splitCh
    rw [hdata, splitChAux_append_sep ':' k.data v.data [] hk]
    simp [string_eta]
  have hjoin : joinSep ":" ((splitChAux ':' v.data []).map (fun l => ⟨l⟩)) = v := by
    have := joinSep_splitChAux ':' v.data []
    simpa [string_eta] using this
  unfold parseLine
  rw [hline, if_neg hne, hcomment, hsplit]
  simp only [Bool.false_eq_true, if_false]
  rw [if_neg hk0, hjoin]

/-! ## Registry lemmas -/

theorem sortByPriorityDesc_perm (l : List Registration) :
    List.Perm (sortByPriorityDesc l) l :=
  List.perm_insertionSort _ l

theorem sortByPriorityDesc_sorted (l : List Registration) :
    (sortByPriorityDesc l).Sorted (fun a b => a.priority ≥ b.priority) := by
  haveI ht : IsTotal Registration (fun a b => a.priority ≥ b.priority) :=
    ⟨fun a b => le_total b.priority a.priority⟩
  haveI htr : IsTrans Registration (fun a b => a.priority ≥ b.priority) :=
    ⟨fun a b c h1 h2 => le_trans h2 h1⟩
  exact List.sorted_insertionSort _ l

theorem countExact_register (st : IRegistry) (r : Registration) (ty : InteractionType)
    (cid : String) :
    countExact (register st r) ty cid
      = countExact st ty cid + (if ty = r.type ∧ exactPred cid r then 1 else 0) := by
  unfold countExact register
  by_cases hty : ty = r.type
  · rw [if_pos hty]
    rw [(sortByPriorityDesc_perm (st r.type ++ [r])).countP_eq]
    rw [List.countP_append, hty]
    by_cases hp : exactPred cid r
    · simp [hp, hty, List.countP_cons]
    · simp [hp, hty, List.countP_cons]
  · rw [if_neg hty, if_neg (fun hc => hty hc.1), Nat.add_zero]

theorem countExact_registerMany (st : IRegistry) (rs : List Registration)
    (ty : InteractionType) (cid : String) :
    countExact (registerMany st rs) ty cid
      = countExact st ty cid
        + rs.countP (fun r => decide (ty = r.type) && exactPred cid r) := by
  induction rs generalizing st with
  | nil => simp [registerMany]
  | cons r rs ih =>
    show countExact (registerMany (register st r) rs) ty cid = _
    rw [ih, countExact_register, List.countP_cons]
    have heq : (if ty = r.type ∧ exactPred cid r then 1 else 0)
        = (if (decide (ty = r.type) && exactPred cid r) = true then 1 else 0) := by
      by_cases h1 : ty = r.type <;> by_cases h2 : exactPred cid r <;> simp [h1, h2]
    rw [heq]
    omega

theorem countExact_eq_zero_of_getReg_none (st : IRegistry) (ty : InteractionType)
    (cid : String) (h : getReg st cid ty = none) : countExact st ty cid = 0 := by
  unfold getReg at h
  unfold countExact
  rw [List.countP_eq_zero]
  rw [List.find?_eq_none] at h
  exact fun a ha => by simpa using h a ha

theorem getReg_isSome_iff (st : IRegistry) (ty : InteractionType) (cid : String) :
    (getReg st cid ty).isSome ↔ ∃ r ∈ st ty, exactPred cid r := by
  unfold getReg
  exact List.find?_isSome

/-- A list in which no two elements both satisfy `p` contains at most one
element satisfying `p`. -/
theorem countP_le_one_of_pairwise {α : Type _} (p : α → Bool) (l : List α)
    (h : l.Pairwise (fun a b => ¬(p a ∧ p b))) : l.countP p ≤ 1 := by
  induction l with
  | nil => simp
  | cons a l ih =>
    rw [List.countP_cons]
    rcases List.pairwise_cons.mp h with ⟨ha, hl⟩
    by_cases hp : p a
    · have h0 : l.countP p = 0 := by
        rw [List.countP_eq_zero]
        exact fun b hb hpb => ha b hb ⟨hp, hpb⟩
      simp [h0, hp]
    · simpa [hp] using ih hl

/-- Elimination for a successful batch registration: the new state is
`registerMany` of the stamped batch, and no stamped handler had an
existing exact-match entry. -/
theorem loadBatch_ok_elim {st st' : IRegistry} {p : ℚ} {src : String}
    {b : List RawHandler} (h : loadBatch st p src b = .ok st') :
    st' = registerMany st (b.map (stamp p src))
      ∧ ∀ r ∈ b.map (stamp p src), getReg st r.customId r.type = none := by
  simp only [loadBatch] at h
  cases hf : (b.map (stamp p src)).find? (fun h => (getReg st h.customId h.type).isSome) with
  | some r =>
    rw [hf] at h
    exact absurd h (by simp)
  | none =>
    rw [hf] at h
    refine ⟨?_, ?_⟩
    · injection h with h
      exact h.symm
    · intro r hr
      have := List.find?_eq_none.mp hf r hr
      simpa using this

/-- A batch containing a handler whose `(customId, type)` already has an
exact-match registration always throws the conflict error. -/
theorem loadBatch_error_of_conflict {st : IRegistry} (p : ℚ) (src : String)
    {b : List RawHandler} {h : RawHandler} (hb : h ∈ b)
    (hex : (getReg st h.customId h.type).isSome) :
    ∃ e, loadBatch st p src b = .error e := by
  simp only [loadBatch]
  cases hf : (b.map (stamp p src)).find? (fun r => (getReg st r.customId r.type).isSome) with
  | some r => exact ⟨_, rfl⟩
  | none =>
    exfalso
    have hnone := List.find?_eq_none.mp hf (stamp p src h) (List.mem_map_of_mem _ hb)
    rw [show (stamp p src h).customId = h.customId from rfl,
      show (stamp p src h).type = h.type from rfl] at hnone
    simp [hex] at hnone

/-! # Claims -/

/-! ## C2: the exact-match uniqueness invariant -/

/-- A single module's `interactions` batch containing two exact-match
handlers on the same (kind, pattern): the loader's pre-check only
consults the registry, so both get registered. -/
def c2Batch : List RawHandler :=
  [{ type := .button, customId := "a", matchType := .exact, handlerId := 0 },
   { type := .button, customId := "a", matchType := .exact, handlerId := 1 }]

/-- The registry state after loading the module with batch `c2Batch`. -/
def c2BadState : IRegistry := registerMany IRegistry.empty (c2Batch.map (stamp 0 "dups"))

/-- The module carrying the duplicate batch. -/
def c2Mod : DiscoveredModule :=
  { dirName := "dups", dirPath := ["addons", "dups"], info := [],
    filePath := ["addons", "dups", "main.js"], creator := none, type := .addon }

/-- Its imported default export: a well-formed `execute` and the
internally colliding `interactions` batch. -/
def c2Decl : AddonDecl :=
  { hasExecute := true, execError := none, interactions := some c2Batch }

/-- **C2 (counterexample).** Loading, through `loadAddon` itself, a single
module whose own batch declares two exact-match button handlers on
pattern `"a"` **succeeds** — no hard error is raised for the second
handler, the `LoadResult` reports `success = true` — and the resulting
registry state, reachable through the loading pipeline, holds **two**
exact-match registrations for (button, "a"): the claimed invariant
fails. -/
theorem c2_counterexample :
    loadAddon IRegistry.empty c2Mod c2Decl
      = .ok (c2BadState,
          { name := "dups", success := true, time := 0, interactionCount := 2 }) ∧
    ReachableI c2BadState ∧
    countExact c2BadState .button "a" = 2 :=
  ⟨rfl, ReachableI.stepOk 0 "dups" c2Batch ReachableI.empty rfl, by decide⟩

/-- No two exact-match handlers of a batch share a (kind, pattern) pair. -/
def exactDistinct (batch : List RawHandler) : Prop :=
  batch.Pairwise (fun a b =>
    ¬(a.matchType = MatchType.exact ∧ b.matchType = MatchType.exact
      ∧ a.type = b.type ∧ a.customId = b.customId))

/-- Registry states reachable through the loading pipeline by modules
whose own batches are free of internal exact-match duplicates. -/
inductive ReachableDistinct : IRegistry → Prop where
  | empty : ReachableDistinct IRegistry.empty
  | stepOk {st st' : IRegistry} (priority : ℚ) (src : String) (batch : List RawHandler) :
      ReachableDistinct st → exactDistinct batch →
      loadBatch st priority src batch = .ok st' → ReachableDistinct st'

/-- **C2 (amended).** At every state of the Interaction Registry reachable
through the loading pipeline, at most one exact-match registration exists
for any (interaction kind, pattern) pair, **provided** no loaded module's
own batch declares two exact-match handlers on the same (kind, pattern);
and an attempt to add a handler whose (kind, pattern) already has an
exact-match registration is a hard error — the batch registration throws,
so `loadAddon` aborts the registering module's entire load and the
pipeline records a failed `LoadResult` with the registry unchanged.
(Colliding exact-match handlers *within a single module's batch* are not
detected: the pre-check consults only the registry, so both are inserted
— see the counterexample.) -/
theorem c2_exact_uniqueness_amended (st : IRegistry) (hst : ReachableDistinct st) :
    (∀ ty cid, countExact st ty cid ≤ 1) ∧
    (∀ (p : ℚ) (src : String) (batch : List RawHandler) (h : RawHandler),
      h ∈ batch → (getReg st h.customId h.type).isSome →
      ∃ e, loadBatch st p src batch = .error e) ∧
    (∀ (m : DiscoveredModule) (batch : List RawHandler) (h : RawHandler),
      h ∈ batch → (getReg st h.customId h.type).isSome →
      ∃ e, loadAddon st m
            { hasExecute := true, execError := none, interactions := some batch }
          = .error e ∧
        pipelineAddonStep st m
            { hasExecute := true, execError := none, interactions := some batch }
          = (st, catchResult m e)) := by
  refine ⟨?_, ?_, ?_⟩
  · induction hst with
    | empty => intro ty cid; simp [countExact, IRegistry.empty]
    | @stepOk s1 s2 p src batch _ hdist hok ih =>
      intro ty cid
      obtain ⟨hst', hnone⟩ := loadBatch_ok_elim hok
      rw [hst', countExact_registerMany]
      by_cases hc :
          (batch.map (stamp p src)).countP
            (fun r => decide (ty = r.type) && exactPred cid r) = 0
      · rw [hc]
        simpa using ih ty cid
      · obtain ⟨r, hr, hpr⟩ :
            ∃ r ∈ batch.map (stamp p src), (decide (ty = r.type) && exactPred cid r) = true := by
          by_contra hno
          push_neg at hno
          exact hc (List.countP_eq_zero.mpr (by simpa using hno))
        have hkey : ty = r.type ∧ r.customId = cid ∧ r.matchType = MatchType.exact := by
          have := hpr
          simp [exactPred] at this
          tauto
        have h0 : countExact s1 ty cid = 0 := by
          have := hnone r hr
          rw [hkey.2.1, ← hkey.1] at this
          exact countExact_eq_zero_of_getReg_none s1 ty cid this
        have h1 : (batch.map (stamp p src)).countP
            (fun r => decide (ty = r.type) && exactPred cid r) ≤ 1 := by
          apply countP_le_one_of_pairwise
          refine List.Pairwise.map _ ?_ hdist
          intro a b hab ⟨hpa, hpb⟩
          simp only [stamp, exactPred, Bool.and_eq_true, decide_eq_true_eq] at hpa hpb
          exact hab ⟨hpa.2.2, hpb.2.2, hpa.1 ▸ hpb.1 ▸ rfl, hpa.2.1.trans hpb.2.1.symm⟩
        omega
  · intro p src batch h hb hex
    exact loadBatch_error_of_conflict p src hb hex
  · intro m batch h hb hex
    obtain ⟨e, he⟩ :=
      @loadBatch_error_of_conflict st (modulePriority m) (displayNameOf m) batch h hb hex
    have hload : loadAddon st m
        { hasExecute := true, execError := none, interactions := some batch }
        = .error e := by
      unfold loadAddon
      simp only [he]
      simp
    exact ⟨e, hload, by unfold pipelineAddonStep; rw [hload]⟩

/-- A batch with one exact-match button handler `"a"`. -/
def c2GoodBatch : List RawHandler :=
  [{ type := .button, customId := "a", matchType := .exact, handlerId := 0 }]

/-- The state after loading one well-formed module registering the single
exact-match button handler `"a"`. -/
def c2GoodState : IRegistry :=
  registerMany IRegistry.empty (c2GoodBatch.map (stamp 0 "m1"))

/-- The second module of the C2 witness scenario, whose batch collides
with the already-registered exact button handler `"a"`. -/
def c2Mod2 : DiscoveredModule :=
  { dirName := "m2", dirPath := [], info := [], filePath := [],
    creator := none, type := ModuleType.addon }

/-- The second module's default export: one exact button handler on the
already-taken pattern `"a"`. -/
def c2Decl2 : AddonDecl :=
  { hasExecute := true, execError := none,
    interactions := some [{ type := .button, customId := "a",
                            matchType := .exact, handlerId := 7 }] }

/-- Witness for C2 (amended) at a concrete state: after one module
registers the exact button handler `"a"`, the invariant holds and a second
module's attempt to register the same (kind, pattern) throws, aborting
that module's whole `loadAddon` call. -/
theorem c2_exact_uniqueness_amended_witness :
    countExact c2GoodState .button "a" ≤ 1 ∧
    (∃ e, loadBatch c2GoodState 0 "m2"
      [{ type := .button, customId := "a", matchType := .exact, handlerId := 7 }] = .error e) ∧
    (∃ e, loadAddon c2GoodState c2Mod2 c2Decl2 = .error e) := by
  have hre : ReachableDistinct c2GoodState :=
    ReachableDistinct.stepOk 0 "m1" c2GoodBatch ReachableDistinct.empty
      (by simp [exactDistinct, c2GoodBatch]) rfl
  have h := c2_exact_uniqueness_amended c2GoodState hre
  refine ⟨h.1 .button "a",
    h.2.1 0 "m2" _ _ (List.mem_singleton.mpr rfl) (by decide), ?_⟩
  obtain ⟨e, he, -⟩ := h.2.2 c2Mod2
    [{ type := .button, customId := "a", matchType := .exact, handlerId := 7 }]
    { type := .button, customId := "a", matchType := .exact, handlerId := 7 }
    (List.mem_singleton.mpr rfl) (by decide)
  exact ⟨e, he⟩

/-! ## C3: cross-module exact-match conflicts -/

/-- After a successful batch registration, every exact-match handler of
the batch is retrievable by `get`. -/
theorem getReg_isSome_after_loadBatch {st0 st1 : IRegistry} {p : ℚ} {src : String}
    {b : List RawHandler} {a : RawHandler} (hok : loadBatch st0 p src b = .ok st1)
    (ha : a ∈ b) (hex : a.matchType = MatchType.exact) :
    (getReg st1 a.customId a.type).isSome := by
  obtain ⟨hst1, -⟩ := loadBatch_ok_elim hok
  have hcount : 0 < countExact st1 a.type a.customId := by
    rw [hst1, countExact_registerMany]
    have hpos : 0 < (b.map (stamp p src)).countP
        (fun r => decide (a.type = r.type) && exactPred a.customId r) := by
      rw [List.countP_pos_iff]
      refine ⟨stamp p src a, List.mem_map_of_mem _ ha, ?_⟩
      simp [stamp, exactPred, hex]
    omega
  rw [getReg_isSome_iff]
  rw [countExact, List.countP_pos_iff] at hcount
  obtain ⟨r, hr, hpr⟩ := hcount
  exact ⟨r, hr, hpr⟩

/-- **C3.** If one module's load has registered an exact-match handler on
(kind, pattern) and a second module's `interactions` batch declares an
exact-match handler on the same (kind, pattern), then the second module's
entire load fails with a conflict error, the registry is left unchanged —
so the first module's handler remains registered and none of the second
module's handlers (colliding or not) were inserted, since every handler
of the batch is checked before any insertion. -/
theorem c3_second_module_load_fails
    (st0 st1 : IRegistry) (pA : ℚ) (srcA : String) (bA : List RawHandler)
    (a : RawHandler) (mB : DiscoveredModule) (declB : AddonDecl) (bB : List RawHandler)
    (b : RawHandler)
    (hA : loadBatch st0 pA srcA bA = .ok st1)
    (haA : a ∈ bA) (haEx : a.matchType = MatchType.exact)
    (hBex : declB.hasExecute = true) (hBerr : declB.execError = none)
    (hBint : declB.interactions = some bB)
    (hbB : b ∈ bB) (hbEx : b.matchType = MatchType.exact)
    (hty : b.type = a.type) (hcid : b.customId = a.customId) :
    (∃ e, loadAddon st1 mB declB = .error e
       ∧ pipelineAddonStep st1 mB declB = (st1, catchResult mB e)) ∧
    (pipelineAddonStep st1 mB declB).2.success = false ∧
    (getReg st1 a.customId a.type).isSome := by
  have hfirst : (getReg st1 a.customId a.type).isSome :=
    getReg_isSome_after_loadBatch hA haA haEx
  have hbex : (getReg st1 b.customId b.type).isSome := by rw [hty, hcid]; exact hfirst
  obtain ⟨e, he⟩ :=
    @loadBatch_error_of_conflict st1 (modulePriority mB) (displayNameOf mB) bB b hbB hbex
  have hload : loadAddon st1 mB declB = .error e := by
    unfold loadAddon
    rw [hBex, hBerr, hBint]
    simp only [he]
    simp
  have hstep : pipelineAddonStep st1 mB declB = (st1, catchResult mB e) := by
    unfold pipelineAddonStep
    rw [hload]
  exact ⟨⟨e, hload, hstep⟩, by rw [hstep]; rfl, hfirst⟩

/-- The second module of the C3 witness scenario. -/
def c3ModB : DiscoveredModule :=
  { dirName := "B", dirPath := ["addons", "B"], info := [("author", JsVal.vstr "b")],
    filePath := ["addons", "B", "main.js"], creator := none, type := .addon }

/-- Module B's declaration: exact button `"a"` (colliding) plus an
unrelated non-colliding handler in the same batch. -/
def c3DeclB : AddonDecl :=
  { hasExecute := true, execError := none,
    interactions := some
      [{ type := .button, customId := "a", matchType := .exact, handlerId := 5 },
       { type := .button, customId := "other", matchType := .exact, handlerId := 6 }] }

/-- Witness for C3: module A registered exact button `"a"`; module B also
declares exact button `"a"` — B's load errors, and the registry still
resolves `"a"`. -/
theorem c3_second_module_load_fails_witness :
    (∃ e, loadAddon c2GoodState c3ModB c3DeclB = .error e) ∧
    (getReg c2GoodState "a" .button).isSome := by
  have h := c3_second_module_load_fails IRegistry.empty c2GoodState 0 "m1" c2GoodBatch
    { type := .button, customId := "a", matchType := .exact, handlerId := 0 }
    c3ModB c3DeclB
    [{ type := .button, customId := "a", matchType := .exact, handlerId := 5 },
     { type := .button, customId := "other", matchType := .exact, handlerId := 6 }]
    { type := .button, customId := "a", matchType := .exact, handlerId := 5 }
    rfl (by decide) rfl rfl rfl rfl (by simp) rfl rfl rfl
  obtain ⟨⟨e, he, -⟩, -, hsome⟩ := h
  exact ⟨⟨e, he⟩, hsome⟩

/-! ## C10: the conflict pre-check ignores the new handler's strategy -/

/-- **C10.** The per-handler conflict pre-check compares each declared
handler only against existing **exact**-match registrations with the same
`customId` and kind, ignoring the new handler's own match strategy: a new
prefix- or regex-strategy handler whose pattern equals an existing
exact-match pattern of the same kind also triggers the conflict error and
aborts the module's load, while a new exact-match handler whose pattern
equals only prefix/regex registrations' patterns does not conflict and is
registered. -/
theorem c10_precheck_ignores_strategy (st : IRegistry) (ty : InteractionType)
    (cid : String) (p : ℚ) (src : String) :
    (∀ (batch : List RawHandler) (h : RawHandler), h ∈ batch →
      h.type = ty → h.customId = cid →
      (h.matchType = MatchType.prefixType ∨ h.matchType = MatchType.regex) →
      (getReg st cid ty).isSome →
      ∃ e, loadBatch st p src batch = .error e) ∧
    (∀ (h : RawHandler), h.type = ty → h.customId = cid →
      h.matchType = MatchType.exact →
      (∀ r ∈ st ty, ¬(r.matchType = MatchType.exact ∧ r.customId = cid)) →
      loadBatch st p src [h] = .ok (registerMany st [stamp p src h])) := by
  constructor
  · intro batch h hb hty hcid _ hex
    refine loadBatch_error_of_conflict p src hb ?_
    rw [hty, hcid]
    exact hex
  · intro h hty hcid _ hnoex
    have hnone : getReg st cid ty = none := by
      unfold getReg
      rw [List.find?_eq_none]
      intro r hr
      simp only [exactPred, decide_eq_true_eq]
      intro ⟨h1, h2⟩
      exact hnoex r hr ⟨h2, h1⟩
    simp only [loadBatch, List.map_cons, List.map_nil]
    have hpred : (getReg st (stamp p src h).customId (stamp p src h).type).isSome = false := by
      rw [show (stamp p src h).customId = h.customId from rfl,
        show (stamp p src h).type = h.type from rfl, hty, hcid, hnone]
      rfl
    rw [List.find?_cons_of_neg _ (by simp [hpred]), List.find?_nil]

/-- A registry holding only a prefix-strategy registration with pattern
`"a"` on buttons. -/
def c10PrefixState : IRegistry :=
  registerMany IRegistry.empty
    [stamp 10 "m1" { type := .button, customId := "a", matchType := .prefixType, handlerId := 0 }]

/-- Witness for C10: an existing prefix registration on button `"a"` does
not block a new exact handler `"a"`; an existing exact registration on
button `"a"` does block a new prefix handler `"a"`. -/
theorem c10_precheck_ignores_strategy_witness :
    (loadBatch c10PrefixState 0 "m2"
        [{ type := .button, customId := "a", matchType := .exact, handlerId := 1 }]
      = .ok (registerMany c10PrefixState
          [stamp 0 "m2" { type := .button, customId := "a", matchType := .exact, handlerId := 1 }])) ∧
    (∃ e, loadBatch c2GoodState 0 "m2"
        [{ type := .button, customId := "a", matchType := .prefixType, handlerId := 2 }]
      = .error e) := by
  constructor
  · exact (c10_precheck_ignores_strategy c10PrefixState .button "a" 0 "m2").2
      _ rfl rfl rfl (by decide)
  · exact (c10_precheck_ignores_strategy c2GoodState .button "a" 0 "m2").1
      [{ type := .button, customId := "a", matchType := .prefixType, handlerId := 2 }]
      { type := .button, customId := "a", matchType := .prefixType, handlerId := 2 }
      (by simp) rfl rfl (Or.inl rfl) (by decide)

/-! ## C5: dispatch order and fallthrough -/

/-- Registering any batch preserves per-kind sortedness (each insertion
re-sorts its kind's list). -/
theorem registerMany_sorted (rs : List Registration) (st : IRegistry)
    (h : ∀ ty, (st ty).Sorted (fun a b => a.priority ≥ b.priority)) (ty : InteractionType) :
    ((registerMany st rs) ty).Sorted (fun a b => a.priority ≥ b.priority) := by
  induction rs generalizing st with
  | nil => exact h ty
  | cons r rs ih =>
    refine ih (register st r) ?_
    intro ty'
    unfold register
    by_cases hty : ty' = r.type
    · rw [if_pos hty]
      exact sortByPriorityDesc_sorted _
    · rw [if_neg hty]
      exact h ty'

/-- Every per-kind list of a reachable registry state is sorted by
descending priority (the sort runs after every insertion). -/
theorem reachable_sorted {st : IRegistry} (hst : ReachableI st) :
    ∀ ty, (st ty).Sorted (fun a b => a.priority ≥ b.priority) := by
  induction hst with
  | empty => intro ty; exact List.sorted_nil
  | @stepOk s1 s2 p src batch _ hok ih =>
    obtain ⟨hs2, -⟩ := loadBatch_ok_elim hok
    subst hs2
    exact registerMany_sorted _ s1 ih

/-- `handle` reports handled exactly when some registration of the kind
both matches the identifier and (when invoked) returns truthy. -/
theorem handleList_true_iff (sem : String → Option (String → Bool)) (beh : Nat → HOutcome)
    (cid : String) (l : List Registration) :
    handleList sem beh cid l = true ↔
      ∃ g ∈ l, matchesM sem cid g.customId g.matchType = true
        ∧ beh g.handlerId = HOutcome.handled := by
  induction l with
  | nil => simp [handleList]
  | cons r rs ih =>
    unfold handleList
    by_cases hm : matchesM sem cid r.customId r.matchType
    · rw [if_pos hm]
      cases hb : beh r.handlerId with
      | handled =>
        constructor
        · intro _
          exact ⟨r, List.mem_cons_self r rs, hm, hb⟩
        · intro _
          rfl
      | declined =>
        rw [ih]
        constructor
        · rintro ⟨g, hg, hmg, hbg⟩
          exact ⟨g, List.mem_cons_of_mem r hg, hmg, hbg⟩
        · rintro ⟨g, hg, hmg, hbg⟩
          rcases List.mem_cons.mp hg with hgr | hgrs
          · subst hgr
            rw [hb] at hbg
            exact absurd hbg (by simp)
          · exact ⟨g, hgrs, hmg, hbg⟩
      | threw =>
        rw [ih]
        constructor
        · rintro ⟨g, hg, hmg, hbg⟩
          exact ⟨g, List.mem_cons_of_mem r hg, hmg, hbg⟩
        · rintro ⟨g, hg, hmg, hbg⟩
          rcases List.mem_cons.mp hg with hgr | hgrs
          · subst hgr
            rw [hb] at hbg
            exact absurd hbg (by simp)
          · exact ⟨g, hgrs, hmg, hbg⟩
    · rw [if_neg hm, ih]
      constructor
      · rintro ⟨g, hg, hmg, hbg⟩
        exact ⟨g, List.mem_cons_of_mem r hg, hmg, hbg⟩
      · rintro ⟨g, hg, hmg, hbg⟩
        rcases List.mem_cons.mp hg with hgr | hgrs
        · subst hgr
          exact absurd hmg hm
        · exact ⟨g, hgrs, hmg, hbg⟩

/-- **C5.** For a recognized interaction kind and a fixed registry state
reached through the pipeline, dispatch iterates the kind's registrations
in descending priority order, testing the identifier per each
registration's strategy (exact: full equality; prefix: `startsWith`;
regex: compiled pattern test, a compile failure making only that one
registration non-matching); the first matching handler returning truthy
stops dispatch with "handled"; a matching handler that throws or returns
falsy causes the next candidate to be tried; if no registration both
matches and returns truthy, dispatch reports "unhandled" (`false`). -/
theorem c5_dispatch_first_match_wins
    (st : IRegistry) (hst : ReachableI st)
    (sem : String → Option (String → Bool)) (beh : Nat → HOutcome)
    (ty : InteractionType) (cid pat : String) (r : Registration) (rs : List Registration) :
    -- the kind's list is iterated in descending priority order
    ((st ty).Sorted (fun a b => a.priority ≥ b.priority)) ∧
    -- match strategies
    (matchesM sem cid pat .exact = decide (cid = pat)) ∧
    (matchesM sem cid pat .prefixType = startsWithS cid pat) ∧
    (∀ t, sem pat = some t → matchesM sem cid pat .regex = t cid) ∧
    (sem pat = none → matchesM sem cid pat .regex = false) ∧
    -- the first matching handler that returns truthy stops dispatch
    (matchesM sem cid r.customId r.matchType = true → beh r.handlerId = .handled →
      handleList sem beh cid (r :: rs) = true) ∧
    -- a matching handler that returns falsy or throws falls through
    (matchesM sem cid r.customId r.matchType = true → beh r.handlerId ≠ .handled →
      handleList sem beh cid (r :: rs) = handleList sem beh cid rs) ∧
    -- a non-matching registration is skipped
    (matchesM sem cid r.customId r.matchType = false →
      handleList sem beh cid (r :: rs) = handleList sem beh cid rs) ∧
    -- handled iff some registration matches and reports handled
    (handle st sem beh ty cid = true ↔
      ∃ g ∈ st ty, matchesM sem cid g.customId g.matchType = true
        ∧ beh g.handlerId = HOutcome.handled) := by
  refine ⟨reachable_sorted hst ty, rfl, rfl, ?_, ?_, ?_, ?_, ?_,
    handleList_true_iff sem beh cid (st ty)⟩
  · intro t hsem
    unfold matchesM
    rw [hsem]
  · intro hsem
    unfold matchesM
    rw [hsem]
  · intro hm hb
    conv_lhs => unfold handleList
    rw [if_pos hm, hb]
  · intro hm hb
    conv_lhs => unfold handleList
    rw [if_pos hm]
    cases hc : beh r.handlerId with
    | handled => exact absurd hc hb
    | declined => rfl
    | threw => rfl
  · intro hm
    conv_lhs => unfold handleList
    rw [hm]
    simp

/-! ## Grouping lemmas (for C1) -/

theorem stableSortDesc_perm {α : Type _} (key : α → ℚ) (l : List α) :
    List.Perm (stableSortDesc key l) l :=
  List.perm_insertionSort _ l

theorem stableSortDesc_sorted {α : Type _} (key : α → ℚ) (l : List α) :
    (stableSortDesc key l).Sorted (fun a b => key a ≥ key b) := by
  haveI : IsTotal α (fun a b => key a ≥ key b) := ⟨fun a b => le_total (key b) (key a)⟩
  haveI : IsTrans α (fun a b => key a ≥ key b) := ⟨fun a b c h1 h2 => le_trans h2 h1⟩
  exact List.sorted_insertionSort _ l

theorem addToGroups_sound {gs : List (JsVal × List DiscoveredModule)} {k : JsVal}
    {m : DiscoveredModule}
    (hgs : ∀ p ∈ gs, ∀ x ∈ p.2, rawPriorityKey x = p.1) (hm : rawPriorityKey m = k) :
    ∀ p ∈ addToGroups gs k m, ∀ x ∈ p.2, rawPriorityKey x = p.1 := by
  induction gs with
  | nil =>
    intro p hp x hx
    simp only [addToGroups, List.mem_singleton] at hp
    subst hp
    simp only [List.mem_singleton] at hx
    subst hx
    exact hm
  | cons q rest ih =>
    intro p hp x hx
    unfold addToGroups at hp
    by_cases hqk : q.1 = k
    · rw [if_pos hqk] at hp
      rcases List.mem_cons.mp hp with hph | hpt
      · subst hph
        rcases List.mem_append.mp hx with hxg | hxm
        · exact hgs q (List.mem_cons_self q rest) x hxg
        · rw [List.mem_singleton] at hxm
          subst hxm
          exact hm.trans hqk.symm
      · exact hgs p (List.mem_cons_of_mem q hpt) x hx
    · rw [if_neg hqk] at hp
      rcases List.mem_cons.mp hp with hph | hpt
      · subst hph
        exact hgs q (List.mem_cons_self q rest) x hx
      · exact ih (fun p hp => hgs p (List.mem_cons_of_mem q hp)) p hpt x hx

theorem addToGroups_mem_self (gs : List (JsVal × List DiscoveredModule)) (k : JsVal)
    (m : DiscoveredModule) :
    ∃ g, (k, g) ∈ addToGroups gs k m ∧ m ∈ g := by
  induction gs with
  | nil => exact ⟨[m], List.mem_singleton.mpr rfl, List.mem_singleton.mpr rfl⟩
  | cons q rest ih =>
    unfold addToGroups
    by_cases hqk : q.1 = k
    · rw [if_pos hqk]
      subst hqk
      exact ⟨q.2 ++ [m], List.mem_cons_self _ _, List.mem_append_right _ (List.mem_singleton.mpr rfl)⟩
    · rw [if_neg hqk]
      obtain ⟨g, hg, hmg⟩ := ih
      exact ⟨g, List.mem_cons_of_mem _ hg, hmg⟩

theorem addToGroups_mem_mono {gs : List (JsVal × List DiscoveredModule)} {k' : JsVal}
    {g' : List DiscoveredModule} {m : DiscoveredModule} (k : JsVal) (x : DiscoveredModule)
    (hmem : (k', g') ∈ gs) (hm : m ∈ g') :
    ∃ g'', (k', g'') ∈ addToGroups gs k x ∧ m ∈ g'' := by
  induction gs with
  | nil => exact absurd hmem (List.not_mem_nil _)
  | cons q rest ih =>
    unfold addToGroups
    by_cases hqk : q.1 = k
    · rw [if_pos hqk]
      rcases List.mem_cons.mp hmem with hh | ht
      · refine ⟨q.2 ++ [x], ?_, ?_⟩
        · rw [show k' = q.1 from congrArg Prod.fst hh]
          exact List.mem_cons_self _ _
        · refine List.mem_append_left _ ?_
          rw [show g' = q.2 from congrArg Prod.snd hh] at hm
          exact hm
      · exact ⟨g', List.mem_cons_of_mem _ ht, hm⟩
    · rw [if_neg hqk]
      rcases List.mem_cons.mp hmem with hh | ht
      · refine ⟨g', ?_, hm⟩
        rw [← hh]
        exact List.mem_cons_self _ _
      · obtain ⟨g'', hg'', hm''⟩ := ih ht
        exact ⟨g'', List.mem_cons_of_mem _ hg'', hm''⟩

theorem addToGroups_keys (gs : List (JsVal × List DiscoveredModule)) (k : JsVal)
    (m : DiscoveredModule) :
    (addToGroups gs k m).map Prod.fst
      = if k ∈ gs.map Prod.fst then gs.map Prod.fst
        else gs.map Prod.fst ++ [k] := by
  induction gs with
  | nil => simp [addToGroups]
  | cons q rest ih =>
    unfold addToGroups
    by_cases hqk : q.1 = k
    · rw [if_pos hqk]
      have hmem : k ∈ (q :: rest).map Prod.fst := by
        rw [List.map_cons, hqk]
        exact List.mem_cons_self _ _
      rw [if_pos hmem]
      simp
    · rw [if_neg hqk]
      simp only [List.map_cons, ih]
      by_cases hc : k ∈ rest.map Prod.fst
      · rw [if_pos hc, if_pos (List.mem_cons_of_mem _ hc)]
      · rw [if_neg hc, if_neg ?hnm]
        · simp
        case hnm =>
          intro hkm
          rcases List.mem_cons.mp hkm with hk1 | hk2
          · exact hqk hk1.symm
          · exact hc hk2

theorem addToGroups_keys_nodup {gs : List (JsVal × List DiscoveredModule)} {k : JsVal}
    {m : DiscoveredModule} (h : (gs.map Prod.fst).Nodup) :
    ((addToGroups gs k m).map Prod.fst).Nodup := by
  rw [addToGroups_keys]
  by_cases hc : k ∈ gs.map Prod.fst
  · rw [if_pos hc]
    exact h
  · rw [if_neg hc]
    refine List.Nodup.append h (List.nodup_singleton k) ?_
    intro a ha hb
    rw [List.mem_singleton] at hb
    subst hb
    exact hc ha

theorem addToGroups_nonempty {gs : List (JsVal × List DiscoveredModule)} {k : JsVal}
    {m : DiscoveredModule} (h : ∀ p ∈ gs, p.2 ≠ []) :
    ∀ p ∈ addToGroups gs k m, p.2 ≠ [] := by
  induction gs with
  | nil =>
    intro p hp
    simp only [addToGroups, List.mem_singleton] at hp
    subst hp
    simp
  | cons q rest ih =>
    intro p hp
    unfold addToGroups at hp
    by_cases hqk : q.1 = k
    · rw [if_pos hqk] at hp
      rcases List.mem_cons.mp hp with hh | ht
      · subst hh
        simp
      · exact h p (List.mem_cons_of_mem q ht)
    · rw [if_neg hqk] at hp
      rcases List.mem_cons.mp hp with hh | ht
      · subst hh
        exact h q (List.mem_cons_self q rest)
      · exact ih (fun p hp => h p (List.mem_cons_of_mem q hp)) p ht

theorem foldl_addToGroups_sound (l : List DiscoveredModule)
    (gs : List (JsVal × List DiscoveredModule))
    (hgs : ∀ p ∈ gs, ∀ x ∈ p.2, rawPriorityKey x = p.1) :
    ∀ p ∈ l.foldl (fun gs m => addToGroups gs (rawPriorityKey m) m) gs,
      ∀ x ∈ p.2, rawPriorityKey x = p.1 := by
  induction l generalizing gs with
  | nil => exact hgs
  | cons m l ih => exact ih _ (addToGroups_sound hgs rfl)

theorem foldl_addToGroups_complete (l : List DiscoveredModule)
    (gs : List (JsVal × List DiscoveredModule)) (m : DiscoveredModule)
    (hm : m ∈ l ∨ ∃ g, (rawPriorityKey m, g) ∈ gs ∧ m ∈ g) :
    ∃ g, (rawPriorityKey m, g) ∈ l.foldl (fun gs m => addToGroups gs (rawPriorityKey m) m) gs
      ∧ m ∈ g := by
  induction l generalizing gs with
  | nil =>
    rcases hm with hml | hgs
    · exact absurd hml (List.not_mem_nil m)
    · exact hgs
  | cons x l ih =>
    rcases hm with hml | ⟨g, hg, hmg⟩
    · rcases List.mem_cons.mp hml with hmx | hml'
      · subst hmx
        exact ih _ (Or.inr (addToGroups_mem_self gs (rawPriorityKey m) m))
      · exact ih _ (Or.inl hml')
    · exact ih _ (Or.inr (addToGroups_mem_mono (rawPriorityKey x) x hg hmg))

theorem foldl_addToGroups_keys_nodup (l : List DiscoveredModule)
    (gs : List (JsVal × List DiscoveredModule)) (h : (gs.map Prod.fst).Nodup) :
    ((l.foldl (fun gs m => addToGroups gs (rawPriorityKey m) m) gs).map Prod.fst).Nodup := by
  induction l generalizing gs with
  | nil => exact h
  | cons m l ih => exact ih _ (addToGroups_keys_nodup h)

theorem foldl_addToGroups_nonempty (l : List DiscoveredModule)
    (gs : List (JsVal × List DiscoveredModule)) (h : ∀ p ∈ gs, p.2 ≠ []) :
    ∀ p ∈ l.foldl (fun gs m => addToGroups gs (rawPriorityKey m) m) gs, p.2 ≠ [] := by
  induction l generalizing gs with
  | nil => exact h
  | cons m l ih => exact ih _ (addToGroups_nonempty h)

/-- Every member of a group of `groupByPriority` carries the group's raw
priority key. -/
theorem groupByPriority_sound (ms : List DiscoveredModule) :
    ∀ p ∈ groupByPriority ms, ∀ x ∈ p.2, rawPriorityKey x = p.1 :=
  foldl_addToGroups_sound _ [] (by simp)

/-- Every module of the input list appears in the group keyed by its raw
priority. -/
theorem groupByPriority_complete (ms : List DiscoveredModule) (m : DiscoveredModule)
    (hm : m ∈ ms) :
    ∃ g, (rawPriorityKey m, g) ∈ groupByPriority ms ∧ m ∈ g := by
  refine foldl_addToGroups_complete _ [] m (Or.inl ?_)
  exact ((stableSortDesc_perm priorityNum ms).mem_iff).mpr hm

theorem groupByPriority_keys_nodup (ms : List DiscoveredModule) :
    ((groupByPriority ms).map Prod.fst).Nodup :=
  foldl_addToGroups_keys_nodup _ [] (by simp)

theorem groupByPriority_nonempty (ms : List DiscoveredModule) :
    ∀ p ∈ groupByPriority ms, p.2 ≠ [] :=
  foldl_addToGroups_nonempty _ [] (by simp)

/-- The group list in processing order: same groups, sorted by descending
numeric key. -/
theorem sortedGroups_mem_iff (ms : List DiscoveredModule)
    (p : JsVal × List DiscoveredModule) :
    p ∈ sortedGroups ms ↔ p ∈ groupByPriority ms :=
  (stableSortDesc_perm _ _).mem_iff

theorem sortedGroups_sorted (ms : List DiscoveredModule) :
    (sortedGroups ms).Sorted (fun a b => keyNum a.1 ≥ keyNum b.1) :=
  stableSortDesc_sorted _ _

theorem sortedGroups_keys_nodup (ms : List DiscoveredModule) :
    ((sortedGroups ms).map Prod.fst).Nodup := by
  have hperm := (stableSortDesc_perm (fun g => keyNum g.1) (groupByPriority ms)).map Prod.fst
  exact (hperm.nodup_iff).mpr (groupByPriority_keys_nodup ms)

theorem addToGroups_members {gs : List (JsVal × List DiscoveredModule)} {k : JsVal}
    {m : DiscoveredModule} {S : List DiscoveredModule}
    (h : ∀ p ∈ gs, ∀ x ∈ p.2, x ∈ S) (hm : m ∈ S) :
    ∀ p ∈ addToGroups gs k m, ∀ x ∈ p.2, x ∈ S := by
  induction gs with
  | nil =>
    intro p hp x hx
    simp only [addToGroups, List.mem_singleton] at hp
    subst hp
    simp only [List.mem_singleton] at hx
    subst hx
    exact hm
  | cons q rest ih =>
    intro p hp x hx
    unfold addToGroups at hp
    by_cases hqk : q.1 = k
    · rw [if_pos hqk] at hp
      rcases List.mem_cons.mp hp with hph | hpt
      · subst hph
        rcases List.mem_append.mp hx with hxg | hxm
        · exact h q (List.mem_cons_self q rest) x hxg
        · rw [List.mem_singleton] at hxm
          subst hxm
          exact hm
      · exact h p (List.mem_cons_of_mem q hpt) x hx
    · rw [if_neg hqk] at hp
      rcases List.mem_cons.mp hp with hph | hpt
      · subst hph
        exact h q (List.mem_cons_self q rest) x hx
      · exact ih (fun p hp => h p (List.mem_cons_of_mem q hp)) p hpt x hx

theorem foldl_addToGroups_members (l : List DiscoveredModule)
    (gs : List (JsVal × List DiscoveredModule)) (S : List DiscoveredModule)
    (h : ∀ p ∈ gs, ∀ x ∈ p.2, x ∈ S) (hl : ∀ x ∈ l, x ∈ S) :
    ∀ p ∈ l.foldl (fun gs m => addToGroups gs (rawPriorityKey m) m) gs, ∀ x ∈ p.2, x ∈ S := by
  induction l generalizing gs with
  | nil => exact h
  | cons m l ih =>
    exact ih _ (addToGroups_members h (hl m (List.mem_cons_self m l)))
      (fun x hx => hl x (List.mem_cons_of_mem m hx))

/-- Every group member comes from the input module list. -/
theorem groupByPriority_members (ms : List DiscoveredModule) :
    ∀ p ∈ groupByPriority ms, ∀ x ∈ p.2, x ∈ ms := by
  refine foldl_addToGroups_members _ [] ms (by simp) ?_
  intro x hx
  exact ((stableSortDesc_perm priorityNum ms).mem_iff).mp hx

/-- Splitting a flatMap at one element: the element lies inside the image
of one list entry, and everything before it is the flatMap of the earlier
entries plus a prefix of that entry's image. -/
theorem flatMap_eq_append_cons {α β : Type _} (f : α → List β) :
    ∀ (gs : List α) (pre post : List β) (e : β),
      gs.flatMap f = pre ++ e :: post →
      ∃ gs1 g gs2 l1 l2, gs = gs1 ++ g :: gs2 ∧ f g = l1 ++ e :: l2
        ∧ pre = gs1.flatMap f ++ l1 := by
  intro gs
  induction gs with
  | nil =>
    intro pre post e h
    simp only [List.flatMap_nil] at h
    exact absurd h.symm (List.append_ne_nil_of_right_ne_nil pre (List.cons_ne_nil e post))
  | cons g gs ih =>
    intro pre post e h
    rw [List.flatMap_cons] at h
    rcases List.append_eq_append_iff.mp h with ⟨a', ha1, ha2⟩ | ⟨c', hc1, hc2⟩
    · -- `pre` extends past `f g`: recurse into the tail
      obtain ⟨gs1, g', gs2, l1, l2, hgs, hfg, hpre⟩ := ih a' post e ha2
      refine ⟨g :: gs1, g', gs2, l1, l2, by rw [hgs]; rfl, hfg, ?_⟩
      rw [ha1, hpre, List.flatMap_cons, List.append_assoc]
    · -- the split point is inside `f g` (or exactly at its end)
      cases c' with
      | nil =>
        simp only [List.nil_append] at hc2
        obtain ⟨gs1, g', gs2, l1, l2, hgs, hfg, hpre⟩ := ih [] post e hc2.symm
        refine ⟨g :: gs1, g', gs2, l1, l2, by rw [hgs]; rfl, hfg, ?_⟩
        have h1 : gs1.flatMap f ++ l1 = [] := hpre.symm
        have h2 : gs1.flatMap f = [] := (List.append_eq_nil.mp h1).1
        have h3 : l1 = [] := (List.append_eq_nil.mp h1).2
        rw [List.flatMap_cons, h2, h3, List.append_nil, List.append_nil]
        rw [hc1, List.append_nil]
      | cons e' c'' =>
        have hinj := hc2
        rw [List.cons_append] at hinj
        injection hinj with he1 he2
        refine ⟨[], g, gs, pre, c'', by simp, ?_, by simp⟩
        rw [hc1, ← he1]

/-! ## C1: the priority barrier -/

/-- **C1.** For every discovered module list and any two priorities
`p1 > p2`, no module with priority `p2` begins loading until every module
with priority `p1` has produced a `LoadResult`; modules with no declared
priority are grouped at priority 0, and groups are processed in
descending priority order — strictly descending whenever the declared
priorities are numbers (which validation guarantees for discovered
modules). -/
theorem c1_priority_barrier (ms : List DiscoveredModule)
    (env : DiscoveredModule → LoadOutcome) (m1 m2 : DiscoveredModule) (p1 p2 : ℚ)
    (h1 : m1 ∈ ms) (h2 : m2 ∈ ms)
    (hp1 : priorityNum m1 = p1) (hp2 : priorityNum m2 = p2) (hgt : p2 < p1) :
    -- a module with no declared priority is grouped at priority 0
    (∀ m : DiscoveredModule, getField m.info "priority" = none → priorityNum m = 0) ∧
    -- groups are processed in descending numeric priority order …
    (sortedGroups ms).Sorted (fun a b => keyNum a.1 ≥ keyNum b.1) ∧
    -- … strictly descending when every declared priority is a number
    ((∀ m ∈ ms, getField m.info "priority" = none ∨
        ∃ q, getField m.info "priority" = some (JsVal.vnum q)) →
      (sortedGroups ms).Sorted (fun a b => keyNum a.1 > keyNum b.1)) ∧
    -- the barrier: before any p2 module's load begins, every p1 module
    -- has already produced its LoadResult
    (∀ pre post, loadTrace env ms = pre ++ LoadEvent.beginLoad m2 :: post →
      LoadEvent.result m1 (loadModuleTimed env m1) ∈ pre) := by
  refine ⟨?_, sortedGroups_sorted ms, ?_, ?_⟩
  · intro m hm
    unfold priorityNum rawPriorityKey
    rw [hm]
    rfl
  · intro hvn
    have hkey : ∀ p ∈ sortedGroups ms, ∃ q, p.1 = JsVal.vnum q := by
      intro p hp
      rw [sortedGroups_mem_iff] at hp
      obtain ⟨x, hx⟩ := List.exists_mem_of_ne_nil _ (groupByPriority_nonempty ms p hp)
      have hxkey := groupByPriority_sound ms p hp x hx
      have hxms := groupByPriority_members ms p hp x hx
      rcases hvn x hxms with hnone | ⟨q, hq⟩
      · exact ⟨0, by rw [← hxkey]; unfold rawPriorityKey; rw [hnone]; rfl⟩
      · exact ⟨q, by rw [← hxkey]; unfold rawPriorityKey; rw [hq]; rfl⟩
    have hnd : (sortedGroups ms).Pairwise (fun a b => a.1 ≠ b.1) :=
      (List.pairwise_map).mp (sortedGroups_keys_nodup ms)
    have hand := (sortedGroups_sorted ms).and hnd
    refine hand.imp_of_mem ?_
    intro a b ha hb ⟨hge, hne⟩
    obtain ⟨qa, hqa⟩ := hkey a ha
    obtain ⟨qb, hqb⟩ := hkey b hb
    rw [hqa, hqb] at hge hne ⊢
    have hq : qb ≠ qa := fun he => hne (by rw [he])
    have : keyNum (JsVal.vnum qb) ≤ keyNum (JsVal.vnum qa) := hge
    have hlt : keyNum (JsVal.vnum qb) < keyNum (JsVal.vnum qa) := by
      refine lt_of_le_of_ne this ?_
      show (qb : ℚ) ≠ qa
      exact hq
    exact hlt
  · intro pre post hsplit
    obtain ⟨gs1, g, gs2, l1, l2, hgs, hfg, hpre⟩ :=
      flatMap_eq_append_cons _ _ pre post _ hsplit
    have hm2g : m2 ∈ g.2 := by
      have hin : LoadEvent.beginLoad m2
          ∈ g.2.map LoadEvent.beginLoad
            ++ g.2.map (fun m => LoadEvent.result m (loadModuleTimed env m)) := by
        rw [show g.2.map LoadEvent.beginLoad
              ++ g.2.map (fun m => LoadEvent.result m (loadModuleTimed env m))
            = l1 ++ LoadEvent.beginLoad m2 :: l2 from hfg]
        exact List.mem_append_right _ (List.mem_cons_self _ _)
      rcases List.mem_append.mp hin with hb | hr
      · obtain ⟨x, hx, hxe⟩ := List.mem_map.mp hb
        cases hxe
        exact hx
      · obtain ⟨x, hx, hxe⟩ := List.mem_map.mp hr
        exact absurd hxe (by simp)
    have hg_mem : g ∈ sortedGroups ms := by
      rw [hgs]
      exact List.mem_append_right _ (List.mem_cons_self _ _)
    have hg_key : rawPriorityKey m2 = g.1 :=
      groupByPriority_sound ms g ((sortedGroups_mem_iff ms g).mp hg_mem) m2 hm2g
    obtain ⟨g1, hg1mem, hm1g1⟩ := groupByPriority_complete ms m1 h1
    have hg1mem' : (rawPriorityKey m1, g1) ∈ sortedGroups ms :=
      (sortedGroups_mem_iff ms _).mpr hg1mem
    have hkey1 : keyNum (rawPriorityKey m1) = p1 := hp1
    have hkey2 : keyNum g.1 = p2 := by rw [← hg_key]; exact hp2
    have hpos : (rawPriorityKey m1, g1) ∈ gs1 := by
      rw [hgs] at hg1mem'
      rcases List.mem_append.mp hg1mem' with hmem | hmem
      · exact hmem
      · exfalso
        rcases List.mem_cons.mp hmem with heq | htail
        · have hk : rawPriorityKey m1 = g.1 := congrArg Prod.fst heq
          rw [hk, hkey2] at hkey1
          exact absurd hkey1 (ne_of_lt hgt)
        · have hsor := sortedGroups_sorted ms
          rw [hgs] at hsor
          have hsub : (g :: gs2).Pairwise (fun a b => keyNum a.1 ≥ keyNum b.1) :=
            hsor.sublist (List.sublist_append_right gs1 (g :: gs2))
          have hrel := (List.pairwise_cons.mp hsub).1 _ htail
          rw [show ((rawPriorityKey m1, g1) : JsVal × List DiscoveredModule).1
              = rawPriorityKey m1 from rfl, hkey1, hkey2] at hrel
          exact absurd hrel (not_le.mpr hgt)
    rw [hpre]
    refine List.mem_append_left _ ?_
    rw [List.mem_flatMap]
    exact ⟨(rawPriorityKey m1, g1), hpos,
      List.mem_append_right _ (List.mem_map_of_mem _ hm1g1)⟩

/-- A priority-5 module for the C1 witness. -/
def c1ModHigh : DiscoveredModule :=
  { dirName := "H", dirPath := ["addons", "H"],
    info := [("author", JsVal.vstr "a"), ("priority", JsVal.vnum 5)],
    filePath := ["addons", "H", "main.js"], creator := none, type := .addon }

/-- A module with no declared priority for the C1 witness. -/
def c1ModLow : DiscoveredModule :=
  { dirName := "L", dirPath := ["addons", "L"], info := [("author", JsVal.vstr "a")],
    filePath := ["addons", "L", "main.js"], creator := none, type := .addon }

/-- An environment in which every load times out. -/
def c1Env : DiscoveredModule → LoadOutcome := fun _ => .timedOut

/-- Witness for C1 on a concrete two-module list (priorities 5 and
absent): in the trace, the priority-5 module's result precedes the
undeclared-priority module's begin event. -/
theorem c1_priority_barrier_witness :
    LoadEvent.result c1ModHigh (loadModuleTimed c1Env c1ModHigh)
      ∈ [LoadEvent.beginLoad c1ModHigh,
         LoadEvent.result c1ModHigh (loadModuleTimed c1Env c1ModHigh)] := by
  have h := c1_priority_barrier [c1ModLow, c1ModHigh] c1Env c1ModHigh c1ModLow 5 0
    (by simp) (by simp) (by decide) (by decide) (by norm_num)
  exact h.2.2.2
    [LoadEvent.beginLoad c1ModHigh,
     LoadEvent.result c1ModHigh (loadModuleTimed c1Env c1ModHigh)]
    [LoadEvent.result c1ModLow (loadModuleTimed c1Env c1ModLow)]
    (by decide)

/-! ## C9: per-module error and timeout isolation -/

theorem addToGroups_flatten (gs : List (JsVal × List DiscoveredModule)) (k : JsVal)
    (m : DiscoveredModule) :
    List.Perm ((addToGroups gs k m).flatMap Prod.snd) (gs.flatMap Prod.snd ++ [m]) := by
  induction gs with
  | nil => simp [addToGroups]
  | cons q rest ih =>
    unfold addToGroups
    by_cases hqk : q.1 = k
    · rw [if_pos hqk]
      simp only [List.flatMap_cons]
      rw [List.append_assoc, List.append_assoc]
      exact List.Perm.append_left q.2 (List.perm_append_comm.trans (by simp))
    · rw [if_neg hqk]
      simp only [List.flatMap_cons]
      rw [List.append_assoc]
      exact List.Perm.append_left q.2 ih

theorem foldl_addToGroups_flatten (l : List DiscoveredModule)
    (gs : List (JsVal × List DiscoveredModule)) :
    List.Perm
      ((l.foldl (fun gs m => addToGroups gs (rawPriorityKey m) m) gs).flatMap Prod.snd)
      (gs.flatMap Prod.snd ++ l) := by
  induction l generalizing gs with
  | nil => simp
  | cons m l ih =>
    show List.Perm ((l.foldl _ (addToGroups gs (rawPriorityKey m) m)).flatMap Prod.snd) _
    refine (ih (addToGroups gs (rawPriorityKey m) m)).trans ?_
    refine (List.Perm.append_right l (addToGroups_flatten gs (rawPriorityKey m) m)).trans ?_
    rw [List.append_assoc, List.singleton_append]

/-- The modules in processing order are exactly the input modules (one
result per input module). -/
theorem processOrder_perm (ms : List DiscoveredModule) :
    List.Perm (processOrder ms) ms := by
  unfold processOrder sortedGroups
  refine ((stableSortDesc_perm _ (groupByPriority ms)).flatMap_right Prod.snd).trans ?_
  unfold groupByPriority
  refine (foldl_addToGroups_flatten _ []).trans ?_
  simpa using stableSortDesc_perm priorityNum ms

/-- **C9.** For every single module load, a thrown import/execution error
and a timeout winning the 30-second race are each caught inside the timed
loader and converted into a failed `LoadResult` carrying the error
message; neither propagates out of the loader, so sibling modules are
unaffected — the result list is exactly one independently-computed
`LoadResult` per input module. -/
theorem c9_timed_loader_isolation (ms : List DiscoveredModule)
    (env : DiscoveredModule → LoadOutcome) (m : DiscoveredModule) (msg : String) :
    -- the results are one per-module result, in processing order:
    -- each module's result depends only on that module's own outcome
    loadModulesOfType env ms = (processOrder ms).map (loadModuleTimed env) ∧
    List.Perm (processOrder ms) ms ∧
    (loadModulesOfType env ms).length = ms.length ∧
    -- a thrown error is converted into a failed LoadResult with its message
    (env m = .threw msg →
      loadModuleTimed env m
        = { name := moduleNameOf m, success := false, time := 0, commandCount := some 0,
            interactionCount := 0, error := some msg }) ∧
    -- a timeout is converted into a failed LoadResult with the timeout message
    (env m = .timedOut →
      loadModuleTimed env m
        = { name := moduleNameOf m, success := false, time := 0, commandCount := some 0,
            interactionCount := 0,
            error := some (m.type.str ++ " loading timeout (30s)") }) := by
  have hmap : loadModulesOfType env ms = (processOrder ms).map (loadModuleTimed env) := by
    unfold loadModulesOfType processOrder
    rw [List.map_flatMap]
  refine ⟨hmap, processOrder_perm ms, ?_, ?_, ?_⟩
  · rw [hmap, List.length_map, (processOrder_perm ms).length_eq]
  · intro h
    unfold loadModuleTimed
    rw [h]
    rfl
  · intro h
    unfold loadModuleTimed
    rw [h]
    rfl

/-- Witness for C9 on a concrete two-module list where one module throws:
its own result is a failure carrying the message, and the sibling's result
list still has one entry per module. -/
theorem c9_timed_loader_isolation_witness :
    loadModuleTimed (fun m => if m.dirName = "H" then .threw "boom" else .timedOut) c1ModHigh
      = { name := moduleNameOf c1ModHigh, success := false, time := 0, commandCount := some 0,
          interactionCount := 0, error := some "boom" } ∧
    (loadModulesOfType (fun m => if m.dirName = "H" then .threw "boom" else .timedOut)
      [c1ModLow, c1ModHigh]).length = 2 := by
  have h := c9_timed_loader_isolation [c1ModLow, c1ModHigh]
    (fun m => if m.dirName = "H" then .threw "boom" else .timedOut) c1ModHigh "boom"
  exact ⟨h.2.2.2.1 (by simp [c1ModHigh]), h.2.2.1⟩

/-! ## C4: command-name conflicts degrade to skips -/

/-- `s.includes(sub)`. -/
def strContains (hay needle : String) : Bool :=
  (List.range (hay.data.length + 1)).any (fun i => needle.data.isPrefixOf (hay.data.drop i))

theorem tableGet_eq_none_iff (t : CmdTable) (n : String) :
    tableGet t n = none ↔ t.find? (fun kv => kv.1 = n) = none := by
  unfold tableGet
  exact Option.map_eq_none'


/-- Inserting a fresh name leaves every present name's entry unchanged. -/
theorem tableGet_tableSet_fresh {t : CmdTable} {n : String} (e' : CmdEntry)
    (hnone : tableGet t n = none) (nq : String) (eq0 : CmdEntry)
    (hq : tableGet t nq = some eq0) :
    tableGet (tableSet t n e') nq = some eq0 := by
  unfold tableSet
  rw [if_neg (by rw [(tableGet_eq_none_iff t n).mp hnone]; simp)]
  unfold tableGet at hq ⊢
  rw [List.find?_append]
  cases hfind : t.find? (fun kv => kv.1 = nq) with
  | none => rw [hfind] at hq; exact absurd hq (by simp)
  | some kv =>
    rw [hfind] at hq
    exact hq

/-- Inserting a fresh name preserves key uniqueness. -/
theorem tableSet_keys_nodup {t : CmdTable} {n : String} (e : CmdEntry)
    (hnone : tableGet t n = none) (h : (t.map Prod.fst).Nodup) :
    ((tableSet t n e).map Prod.fst).Nodup := by
  unfold tableSet
  rw [if_neg (by rw [(tableGet_eq_none_iff t n).mp hnone]; simp)]
  rw [List.map_append]
  refine List.Nodup.append h (by simp) ?_
  intro a ha hb
  simp only [List.map_cons, List.map_nil, List.mem_singleton] at hb
  obtain ⟨kv, hkv, hkv1⟩ := List.mem_map.mp ha
  have hfind := (tableGet_eq_none_iff t n).mp hnone
  rw [List.find?_eq_none] at hfind
  exact hfind kv hkv (by simp [hkv1, hb])

/-- Step equation: a name conflict only records the skip and the warning
log line. -/
theorem loadCommandValidStep_conflict (m : DiscoveredModule) (st : CmdLoadState)
    (id : Nat) (name : String) (inters : Option (List RawHandler)) (ex : CmdEntry)
    (hfind : tableGet st.table name = some ex) :
    loadCommandValidStep m st id name inters
      = { st with
          skippedCommands := st.skippedCommands ++ [name],
          warns := st.warns ++ ["Command conflict: \"" ++ name ++ "\" already registered by "
            ++ existingSource (some ex) ++ ". Skipping duplicate from " ++ moduleNameOf m] } := by
  unfold loadCommandValidStep
  rw [hfind]

/-- Step equation: inserting a fresh command with no interactions. -/
theorem loadCommandValidStep_fresh_none (m : DiscoveredModule) (st : CmdLoadState)
    (id : Nat) (name : String) (hfind : tableGet st.table name = none) :
    loadCommandValidStep m st id name none
      = { st with
          table := tableSet st.table name { id := id, name := name, info := m.info },
          commandCount := st.commandCount + 1 } := by
  unfold loadCommandValidStep
  rw [hfind]

/-- Step equation: inserting a fresh command whose interaction batch
registers successfully. -/
theorem loadCommandValidStep_fresh_ok (m : DiscoveredModule) (st : CmdLoadState)
    (id : Nat) (name : String) (hs : List RawHandler) (ireg' : IRegistry)
    (hfind : tableGet st.table name = none)
    (hb : loadBatch st.ireg (modulePriority m) (displayNameOf m) hs = .ok ireg') :
    loadCommandValidStep m st id name (some hs)
      = { st with
          table := tableSet st.table name { id := id, name := name, info := m.info },
          commandCount := st.commandCount + 1,
          ireg := ireg', interactionCount := st.interactionCount + hs.length } := by
  unfold loadCommandValidStep
  rw [hfind]
  dsimp only
  rw [hb]

/-- Step equation: inserting a fresh command whose interaction batch
throws a conflict. -/
theorem loadCommandValidStep_fresh_error (m : DiscoveredModule) (st : CmdLoadState)
    (id : Nat) (name : String) (hs : List RawHandler) (e : String)
    (hfind : tableGet st.table name = none)
    (hb : loadBatch st.ireg (modulePriority m) (displayNameOf m) hs = .error e) :
    loadCommandValidStep m st id name (some hs)
      = { st with
          table := tableSet st.table name { id := id, name := name, info := m.info },
          commandCount := st.commandCount + 1, thrown := some e } := by
  unfold loadCommandValidStep
  rw [hfind]
  dsimp only
  rw [hb]

/-- One `loadCommand` definition step never displaces a present table
entry and preserves key uniqueness. -/
theorem loadCommandDefStep_preserves (m : DiscoveredModule) (st : CmdLoadState)
    (cmd : CmdDef) (n : String) (e : CmdEntry)
    (hpres : tableGet st.table n = some e) (hnd : (st.table.map Prod.fst).Nodup) :
    tableGet (loadCommandDefStep m st cmd).table n = some e
      ∧ ((loadCommandDefStep m st cmd).table.map Prod.fst).Nodup := by
  unfold loadCommandDefStep
  by_cases hth : st.thrown.isSome
  · rw [if_pos hth]
    exact ⟨hpres, hnd⟩
  · rw [if_neg hth]
    cases cmd with
    | invalidShape => exact ⟨hpres, hnd⟩
    | badBuilder => exact ⟨hpres, hnd⟩
    | valid id name inters =>
      dsimp only
      cases hfind : tableGet st.table name with
      | some existing =>
        rw [loadCommandValidStep_conflict m st id name inters existing hfind]
        exact ⟨hpres, hnd⟩
      | none =>
        have hpres' : tableGet (tableSet st.table name { id := id, name := name, info := m.info }) n
            = some e := tableGet_tableSet_fresh _ hfind n e hpres
        have hnd' := @tableSet_keys_nodup st.table name
          { id := id, name := name, info := m.info } hfind hnd
        cases inters with
        | none =>
          rw [loadCommandValidStep_fresh_none m st id name hfind]
          exact ⟨hpres', hnd'⟩
        | some hs =>
          cases hb : loadBatch st.ireg (modulePriority m) (displayNameOf m) hs with
          | ok ireg' =>
            rw [loadCommandValidStep_fresh_ok m st id name hs ireg' hfind hb]
            exact ⟨hpres', hnd'⟩
          | error e' =>
            rw [loadCommandValidStep_fresh_error m st id name hs e' hfind hb]
            exact ⟨hpres', hnd'⟩

theorem loadCommand_fold_preserves (m : DiscoveredModule) (defs : List CmdDef)
    (st : CmdLoadState) (n : String) (e : CmdEntry)
    (hpres : tableGet st.table n = some e) (hnd : (st.table.map Prod.fst).Nodup) :
    tableGet (defs.foldl (loadCommandDefStep m) st).table n = some e
      ∧ ((defs.foldl (loadCommandDefStep m) st).table.map Prod.fst).Nodup := by
  induction defs generalizing st with
  | nil => exact ⟨hpres, hnd⟩
  | cons cmd defs ih =>
    obtain ⟨h1, h2⟩ := loadCommandDefStep_preserves m st cmd n e hpres hnd
    exact ih _ h1 h2

/-- When every definition is valid but conflicts with the starting table,
the fold leaves everything unchanged except the skipped-command list,
which grows by one name per definition. -/
theorem loadCommand_fold_all_conflict (m : DiscoveredModule) (defs : List CmdDef)
    (st : CmdLoadState)
    (hall : ∀ cmd ∈ defs, ∃ id n i, cmd = CmdDef.valid id n i
      ∧ (tableGet st.table n).isSome)
    (hth : st.thrown = none) :
    (defs.foldl (loadCommandDefStep m) st).table = st.table
      ∧ (defs.foldl (loadCommandDefStep m) st).ireg = st.ireg
      ∧ (defs.foldl (loadCommandDefStep m) st).commandCount = st.commandCount
      ∧ (defs.foldl (loadCommandDefStep m) st).thrown = none
      ∧ (defs.foldl (loadCommandDefStep m) st).skippedCommands.length
          = st.skippedCommands.length + defs.length := by
  induction defs generalizing st with
  | nil => exact ⟨rfl, rfl, rfl, hth, rfl⟩
  | cons cmd defs ih =>
    obtain ⟨id, n, i, hcmd, hconf⟩ := hall cmd (List.mem_cons_self cmd defs)
    subst hcmd
    obtain ⟨ex, hex⟩ := Option.isSome_iff_exists.mp hconf
    have hstep : loadCommandDefStep m st (CmdDef.valid id n i)
        = { st with
            skippedCommands := st.skippedCommands ++ [n],
            warns := st.warns ++ ["Command conflict: \"" ++ n ++ "\" already registered by "
              ++ existingSource (some ex) ++ ". Skipping duplicate from " ++ moduleNameOf m] } := by
      unfold loadCommandDefStep
      rw [if_neg (by rw [hth]; simp)]
      exact loadCommandValidStep_conflict m st id n i ex hex
    rw [List.foldl_cons, hstep]
    have hall' : ∀ cmd ∈ defs, ∃ id nn ii, cmd = CmdDef.valid id nn ii
        ∧ (tableGet st.table nn).isSome :=
      fun cmd hc => hall cmd (List.mem_cons_of_mem _ hc)
    obtain ⟨h1, h2, h3, h4, h5⟩ := ih
      { st with
        skippedCommands := st.skippedCommands ++ [n],
        warns := st.warns ++ ["Command conflict: \"" ++ n ++ "\" already registered by "
          ++ existingSource (some ex) ++ ". Skipping duplicate from " ++ moduleNameOf m] }
      (by simpa using hall') hth
    refine ⟨h1, h2, h3, h4, ?_⟩
    rw [h5]
    dsimp only
    simp only [List.length_append, List.length_cons, List.length_nil]
    omega

/-- The Command Table with `ping` owned by module "ModA". -/
def c4Table : CmdTable :=
  [("ping", { id := 0, name := "ping",
              info := [("name", JsVal.vstr "ModA"), ("author", JsVal.vstr "a")] })]

/-- The second module, claiming `ping` again plus a fresh `pong`. -/
def c4Mod : DiscoveredModule :=
  { dirName := "B", dirPath := ["addons", "B"], info := [("author", JsVal.vstr "b")],
    filePath := ["addons", "B", "cmd.js"], creator := none, type := .command }

/-- **C4 (counterexample).** The loser's LoadResult does **not** reference
the winner.  Loading module B — which claims `ping`, already registered by
the module named "ModA", plus a fresh `pong` — yields a successful result
whose only message is "Skipped duplicate commands: ping".  The winner's
name "ModA" (what the conflict warning log resolves via `existingSource`)
appears in no message of the LoadResult. -/
theorem c4_counterexample :
    (loadCommand c4Table IRegistry.empty c4Mod
        (some [CmdDef.valid 1 "ping" none, CmdDef.valid 2 "pong" none])).2
      = Except.ok
          { name := "B", success := true, time := 0, commandCount := some 1,
            interactionCount := 0, messages := some ["Skipped duplicate commands: ping"] } ∧
    existingSource (tableGet c4Table "ping") = "ModA" ∧
    strContains "Skipped duplicate commands: ping" "ModA" = false :=
  ⟨rfl, by decide, by decide⟩

/-- **C4 (amended).** For every pair of command definitions claiming the
same command name, exactly one entry — the first registrant's — ends up in
the Command Table, regardless of priority; the later claim is skipped (not
an error) and recorded in the loser's LoadResult messages by a skip
message **listing the skipped command names** (the winner is named only in
the warning log, not in the LoadResult); and when every definition in a
module is skipped due to such conflicts, that module's LoadResult is
marked `skipped = true` and not `success = true`. -/
theorem c4_command_conflicts_amended
    (table : CmdTable) (ireg : IRegistry) (m : DiscoveredModule)
    (defs : List CmdDef) (n n' : String) (e : CmdEntry) (i j : Nat)
    (hpres : tableGet table n = some e) (hnd : (table.map Prod.fst).Nodup) :
    -- the first registrant's entry survives any later load
    (∀ ds, tableGet (loadCommand table ireg m ds).1.1 n = some e
      ∧ (((loadCommand table ireg m ds).1.1).map Prod.fst).Nodup) ∧
    -- all definitions skipped ⇒ skipped = true and success = false, not an error
    (defs ≠ [] →
      (∀ cmd ∈ defs, ∃ id nn ii, cmd = CmdDef.valid id nn ii
        ∧ (tableGet table nn).isSome) →
      ∃ r, loadCommand table ireg m (some defs) = ((table, ireg), Except.ok r)
        ∧ r.skipped = some true ∧ r.success = false) ∧
    -- a conflicting definition next to a fresh one: the load succeeds and
    -- the skip message lists the skipped name
    (tableGet table n' = none →
      loadCommand table ireg m (some [CmdDef.valid i n none, CmdDef.valid j n' none])
        = ((tableSet table n' { id := j, name := n', info := m.info }, ireg),
           Except.ok { name := displayNameOf m, success := true, time := 0,
                       commandCount := some 1, interactionCount := 0,
                       messages := some ["Skipped duplicate commands: " ++ n] })) := by
  have hvalid : ∀ (s : CmdLoadState), s.thrown = none → ∀ (id : Nat) (name : String)
      (inters : Option (List RawHandler)),
      loadCommandDefStep m s (CmdDef.valid id name inters)
        = loadCommandValidStep m s id name inters := by
    intro s hs id name inters
    unfold loadCommandDefStep
    rw [if_neg (by rw [hs]; simp)]
  refine ⟨?_, ?_, ?_⟩
  · intro ds
    cases ds with
    | none => exact ⟨hpres, hnd⟩
    | some defs' => exact loadCommand_fold_preserves m defs' _ n e hpres hnd
  · intro hne hall
    obtain ⟨h1, h2, h3, h4, h5⟩ := loadCommand_fold_all_conflict m defs
      { table := table, ireg := ireg } (by simpa using hall) rfl
    have hskip : (defs.foldl (loadCommandDefStep m)
        { table := table, ireg := ireg }).skippedCommands ≠ [] := by
      have hlen : 0 < (defs.foldl (loadCommandDefStep m)
          { table := table, ireg := ireg }).skippedCommands.length := by
        rw [h5]
        have := List.length_pos.mpr hne
        simp only [List.length_nil]
        omega
      exact List.ne_nil_of_length_pos hlen
    refine ⟨{ name := moduleNameOf m, success := false, time := 0,
              interactionCount := 0, commandCount := some 0, skipped := some true,
              error := some ("All commands skipped due to conflicts: "
                ++ joinSep ", " ((defs.foldl (loadCommandDefStep m)
                    { table := table, ireg := ireg }).skippedCommands)) }, ?_, rfl, rfl⟩
    unfold loadCommand
    dsimp only
    rw [h4]
    have hcc : (defs.foldl (loadCommandDefStep m)
        { table := table, ireg := ireg }).commandCount = 0 := h3
    rw [if_pos ⟨hcc, hskip⟩, h1, h2]
  · intro hfresh
    have hst1 : loadCommandDefStep m { table := table, ireg := ireg }
        (CmdDef.valid i n none)
        = { table := table, ireg := ireg, skippedCommands := [n],
            warns := ["Command conflict: \"" ++ n ++ "\" already registered by "
              ++ existingSource (some e) ++ ". Skipping duplicate from "
              ++ moduleNameOf m] } := by
      rw [hvalid { table := table, ireg := ireg } rfl i n none,
        loadCommandValidStep_conflict m { table := table, ireg := ireg } i n none e hpres]
      rfl
    have hst2 : loadCommandDefStep m
        { table := table, ireg := ireg, skippedCommands := [n],
          warns := ["Command conflict: \"" ++ n ++ "\" already registered by "
            ++ existingSource (some e) ++ ". Skipping duplicate from "
            ++ moduleNameOf m] }
        (CmdDef.valid j n' none)
        = { table := tableSet table n' { id := j, name := n', info := m.info },
            ireg := ireg, commandCount := 1, skippedCommands := [n],
            warns := ["Command conflict: \"" ++ n ++ "\" already registered by "
              ++ existingSource (some e) ++ ". Skipping duplicate from "
              ++ moduleNameOf m] } := by
      rw [hvalid _ rfl j n' none,
        loadCommandValidStep_fresh_none m _ j n' hfresh]
    unfold loadCommand
    dsimp only
    rw [List.foldl_cons, List.foldl_cons, List.foldl_nil, hst1, hst2]
    rfl

/-- Witness for C4 (amended) at the concrete counterexample table: the
winner's entry survives, an all-conflict module is skipped rather than
failed, and the mixed module's result carries the skip message. -/
theorem c4_command_conflicts_amended_witness :
    (tableGet (loadCommand c4Table IRegistry.empty c4Mod
        (some [CmdDef.valid 1 "ping" none])).1.1 "ping"
      = some { id := 0, name := "ping",
               info := [("name", JsVal.vstr "ModA"), ("author", JsVal.vstr "a")] }) ∧
    (∃ r, loadCommand c4Table IRegistry.empty c4Mod (some [CmdDef.valid 1 "ping" none])
        = ((c4Table, IRegistry.empty), Except.ok r)
      ∧ r.skipped = some true ∧ r.success = false) := by
  have h := c4_command_conflicts_amended c4Table IRegistry.empty c4Mod
    [CmdDef.valid 1 "ping" none] "ping" "pong"
    { id := 0, name := "ping",
      info := [("name", JsVal.vstr "ModA"), ("author", JsVal.vstr "a")] } 1 2
    (by decide) (by decide)
  refine ⟨(h.1 (some [CmdDef.valid 1 "ping" none])).1, ?_⟩
  refine h.2.1 (by simp) ?_
  intro cmd hc
  rw [List.mem_singleton] at hc
  subst hc
  exact ⟨1, "ping", none, rfl, by decide⟩

/-! ## C7: excluded modules never reach discovery -/

/-- A discovered module's descriptor is validation-clean, not disabled,
and not kind-incompatible. -/
def validModule (ty : ModuleType) (m : DiscoveredModule) : Prop :=
  validateAddonInfo m.info = []
    ∧ getField m.info "enabled" ≠ some (JsVal.vbool false)
    ∧ (∀ v, getField m.info "type" = some v → truthy v → toLowerS (jsToStr v) = ty.str)
    ∧ m.type = ty

/-- Whatever `processModuleDirectory` accepts is validation-clean, not
disabled, not kind-incompatible, and sited at the processed directory. -/
theorem processModuleDirectory_valid {fs : FileSys} {dn : String} {dp ip : FPath}
    {ty : ModuleType} {cr pm : Option String} {m : DiscoveredModule}
    (h : processModuleDirectory fs dn dp ip ty cr pm = some m) :
    validModule ty m ∧ m.dirPath = dp := by
  unfold processModuleDirectory at h
  cases hp : parseInfoFileFS fs ip with
  | none => rw [hp] at h; exact absurd h (by simp)
  | some info =>
    rw [hp] at h
    dsimp only at h
    split at h
    · exact absurd h (by simp)
    next h1 =>
    split at h
    · exact absurd h (by simp)
    next h2 =>
    split at h
    · exact absurd h (by simp)
    next h3 =>
    split at h
    · exact absurd h (by simp)
    next fc hfc =>
    split at h
    · exact absurd h (by simp)
    next h5 =>
    have hval : validateAddonInfo info = [] := by
      rcases Nat.eq_zero_or_pos (validateAddonInfo info).length with h0 | h0
      · exact List.length_eq_zero.mp h0
      · exact absurd h0 h1
    have htype : ∀ v, getField info "type" = some v → truthy v
        → toLowerS (jsToStr v) = ty.str := by
      intro v hv htr
      by_contra hne
      rw [hv] at h3
      simp [htr, hne] at h3
    split at h
    next p hpm =>
      have hm := Option.some.inj h
      subst hm
      exact ⟨⟨hval, h2, htype, rfl⟩, rfl⟩
    next hpm =>
      have hm := Option.some.inj h
      subst hm
      exact ⟨⟨hval, h2, htype, rfl⟩, rfl⟩

theorem discoverExtensions_valid (fs : FileSys) (parent : DiscoveredModule)
    (ty : ModuleType) : ∀ mm ∈ discoverExtensions fs parent ty, validModule ty mm := by
  intro mm hmm
  unfold discoverExtensions at hmm
  split at hmm
  next s hs =>
    split at hmm
    · exact absurd hmm (by simp)
    dsimp only at hmm
    split at hmm
    · exact absurd hmm (by simp)
    obtain ⟨name, hname, hsome⟩ := List.mem_filterMap.mp hmm
    split at hsome
    · exact absurd hsome (by simp)
    cases hpmd : processModuleDirectory fs name
        (joinPath parent.dirPath s ++ [name])
        (joinPath parent.dirPath s ++ [name] ++ ["addon.info"]) ty parent.creator
        (some (parentLabelOf parent.creator parent.dirName)) with
    | none => rw [hpmd] at hsome; exact absurd hsome (by simp)
    | some m0 =>
      rw [hpmd] at hsome
      have hmm0 := Option.some.inj hsome
      have hv := (processModuleDirectory_valid hpmd).1
      rw [← hmm0]
      exact hv
  next =>
    exact absurd hmm (by simp)

theorem discoverOne_valid (fs : FileSys) (ty : ModuleType) (st : DiscState)
    (dn : String) (dp ip : FPath) (cr : Option String)
    (h : ∀ mm ∈ st.discovered, validModule ty mm) :
    ∀ mm ∈ (discoverOne fs ty st dn dp ip cr).discovered, validModule ty mm := by
  intro mm hmm
  unfold discoverOne at hmm
  cases hpmd : processModuleDirectory fs dn dp ip ty cr none with
  | none => rw [hpmd] at hmm; exact h mm hmm
  | some m0 =>
    rw [hpmd] at hmm
    dsimp only at hmm
    rcases List.mem_append.mp hmm with hl | hr
    · rcases List.mem_append.mp hl with hl' | hm0
      · exact h mm hl'
      · rw [List.mem_singleton] at hm0
        subst hm0
        exact (processModuleDirectory_valid hpmd).1
    · exact discoverExtensions_valid fs m0 ty mm hr

theorem discoverEntry_valid (fs : FileSys) (ty : ModuleType) (root : FPath)
    (st : DiscState) (name : String) (h : ∀ mm ∈ st.discovered, validModule ty mm) :
    ∀ mm ∈ (discoverEntry fs ty root st name).discovered, validModule ty mm := by
  unfold discoverEntry
  dsimp only
  split
  · exact discoverOne_valid fs ty st _ _ _ _ h
  · generalize fs.readDir (root ++ [name]) = subs
    induction subs generalizing st with
    | nil => exact h
    | cons sub subs ih =>
      rw [List.foldl_cons]
      refine ih _ ?_
      dsimp only
      split
      · exact discoverOne_valid fs ty st _ _ _ _ h
      · exact h

theorem mainDiscovery_valid (fs : FileSys) (root : FPath) (ty : ModuleType) :
    ∀ mm ∈ (mainDiscovery fs root ty).discovered, validModule ty mm := by
  unfold mainDiscovery
  generalize fs.readDir root = entries
  suffices hgen : ∀ (st : DiscState), (∀ mm ∈ st.discovered, validModule ty mm) →
      ∀ mm ∈ (entries.foldl (discoverEntry fs ty root) st).discovered, validModule ty mm by
    exact hgen { discovered := [], processed := [] } (by simp)
  induction entries with
  | nil => exact fun st h => h
  | cons e entries ih =>
    intro st h
    rw [List.foldl_cons]
    exact ih _ (discoverEntry_valid fs ty root st e h)

theorem scanExtDir_valid (fs : FileSys) (ty : ModuleType) (cr : Option String)
    (dp ep : FPath) (st : ScanState) (name : String)
    (h : ∀ mm ∈ st.found, validModule ty mm) :
    ∀ mm ∈ (scanExtDir fs ty cr dp ep st name).found, validModule ty mm := by
  intro mm hmm
  unfold scanExtDir at hmm
  dsimp only at hmm
  split at hmm
  · exact h mm hmm
  split at hmm
  · exact h mm hmm
  cases hpmd : processModuleDirectory fs name (ep ++ [name])
      (ep ++ [name] ++ ["addon.info"]) ty cr
      (some (parentLabelOf cr ((dp.getLast?).getD ""))) with
  | none => rw [hpmd] at hmm; exact h mm hmm
  | some m0 =>
    rw [hpmd] at hmm
    dsimp only at hmm
    rcases List.mem_append.mp hmm with hl | hr
    · exact h mm hl
    · rw [List.mem_singleton] at hr
      subst hr
      exact (processModuleDirectory_valid hpmd).1

theorem scanParentDir_valid (fs : FileSys) (ty : ModuleType) (st : ScanState)
    (entry : FPath × Option String) (h : ∀ mm ∈ st.found, validModule ty mm) :
    ∀ mm ∈ (scanParentDir fs ty st entry).found, validModule ty mm := by
  unfold scanParentDir
  dsimp only
  split
  · exact h
  split
  · exact h
  split
  next s hs =>
    split
    · exact h
    split
    · exact h
    generalize fs.readDir (joinPath entry.1 s) = names
    induction names generalizing st with
    | nil => exact h
    | cons nm names ih =>
      rw [List.foldl_cons]
      exact ih _ (scanExtDir_valid fs ty entry.2 entry.1 _ st nm h)
  next => exact h

theorem foldl_scanParentDir_valid (fs : FileSys) (ty : ModuleType)
    (dirs : List (FPath × Option String)) :
    ∀ (st : ScanState), (∀ mm ∈ st.found, validModule ty mm) →
      ∀ mm ∈ (dirs.foldl (scanParentDir fs ty) st).found, validModule ty mm := by
  induction dirs with
  | nil => exact fun st h => h
  | cons d dirs ih =>
    intro st h
    rw [List.foldl_cons]
    exact ih _ (scanParentDir_valid fs ty st d h)

theorem discoverAllExtensions_valid (fs : FileSys) (root : FPath) (ty : ModuleType)
    (processed : List FPath) :
    ∀ mm ∈ (discoverAllExtensions fs root ty processed).found, validModule ty mm :=
  foldl_scanParentDir_valid fs ty _ { processed := processed, found := [] } (by simp)

/-- Everything returned by `discoverModules` is validation-clean, not
disabled, and not kind-incompatible. -/
theorem discoverModules_valid (fs : FileSys) (root : FPath) (ty : ModuleType) :
    ∀ mm ∈ discoverModules fs root ty, validModule ty mm := by
  intro mm hmm
  unfold discoverModules at hmm
  rcases List.mem_append.mp hmm with hl | hr
  · exact mainDiscovery_valid fs root ty mm hl
  · exact discoverAllExtensions_valid fs root ty _ mm hr

/-- **C7.** A candidate module directory is excluded from discovery
entirely — never returned as a `DiscoveredModule`, hence never reaching
any `LoadResult` (results are produced only for discovered modules) — if
its descriptor's `enabled` field is `false`, if a legacy `type` field is
present and differs from the target kind, or if validation fails: in
particular a missing or empty `author`, no entry-file field at all, a
negative or non-integer (or non-numeric) priority, or an absolute
declared file path. -/
theorem c7_discovery_exclusions (fs : FileSys) (dn : String) (dp ip : FPath)
    (ty : ModuleType) (cr pm : Option String) (info : Info)
    (env : DiscoveredModule → LoadOutcome) (root : FPath)
    (hp : parseInfoFileFS fs ip = some info) :
    -- `enabled: false` excludes the module
    (getField info "enabled" = some (JsVal.vbool false) →
      processModuleDirectory fs dn dp ip ty cr pm = none) ∧
    -- a kind-incompatible legacy `type` field excludes the module
    (∀ v, getField info "type" = some v → truthy v = true →
      toLowerS (jsToStr v) ≠ ty.str →
      processModuleDirectory fs dn dp ip ty cr pm = none) ∧
    -- any validation failure excludes the module
    (validateAddonInfo info ≠ [] → processModuleDirectory fs dn dp ip ty cr pm = none) ∧
    -- missing or empty author fails validation
    (authorBad info = true → validateAddonInfo info ≠ []) ∧
    -- no entry-file field at all fails validation
    ((!truthyO (getField info "addonfile") && !truthyO (getField info "commandfile")
        && !truthyO (getField info "mainfile")) = true → validateAddonInfo info ≠ []) ∧
    -- a non-numeric, negative or non-integer priority fails validation
    (∀ v, getField info "priority" = some v →
      (jsNumber v = none ∨ ∃ q, jsNumber v = some q ∧ (q < 0 ∨ q.den ≠ 1)) →
      validateAddonInfo info ≠ []) ∧
    -- an absolute declared file path fails validation
    (∀ s, some (JsVal.vstr s) ∈ [getField info "addonfile", getField info "commandfile",
        getField info "mainfile", getField info "eventfile", getField info "intentconfig"] →
      s ≠ "" → isAbsolute s = true → validateAddonInfo info ≠ []) ∧
    -- everything discovered is validation-clean, enabled and kind-compatible
    (∀ mm ∈ discoverModules fs root ty, validModule ty mm) ∧
    -- and LoadResults arise only from discovered modules
    (∀ r ∈ loadModulesOfType env (discoverModules fs root ty),
      ∃ mm ∈ discoverModules fs root ty, r = loadModuleTimed env mm) := by
  refine ⟨?_, ?_, ?_, ?_, ?_, ?_, ?_, discoverModules_valid fs root ty, ?_⟩
  · intro henb
    unfold processModuleDirectory
    simp only [hp]
    by_cases hv : (validateAddonInfo info).length > 0
    · rw [if_pos hv]
    · rw [if_neg hv, if_pos henb]
  · intro v hty htr hne
    unfold processModuleDirectory
    simp only [hp]
    by_cases hv : (validateAddonInfo info).length > 0
    · rw [if_pos hv]
    · rw [if_neg hv]
      by_cases he : getField info "enabled" = some (JsVal.vbool false)
      · rw [if_pos he]
      · rw [if_neg he]
        simp [hty, htr, hne]
  · intro hv
    unfold processModuleDirectory
    simp only [hp]
    rw [if_pos (List.length_pos.mpr hv)]
  · intro hb
    apply List.ne_nil_of_length_pos
    unfold validateAddonInfo
    rw [if_pos hb]
    simp only [List.length_append, List.length_cons, List.length_nil]
    omega
  · intro hfiles
    apply List.ne_nil_of_length_pos
    unfold validateAddonInfo
    rw [if_pos hfiles]
    simp only [List.length_append, List.length_cons, List.length_nil]
    omega
  · intro v hprio hbad
    apply List.ne_nil_of_length_pos
    unfold validateAddonInfo
    simp only [hprio]
    rcases hbad with h0 | ⟨q, hq, hq2⟩
    · simp only [h0]
      simp only [List.length_append, List.length_cons, List.length_nil]
      omega
    · simp only [hq]
      rcases hq2 with hlt | hden
      · rw [if_pos hlt]
        simp only [List.length_append, List.length_cons, List.length_nil]
        omega
      · by_cases hlt : q < 0
        · rw [if_pos hlt]
          simp only [List.length_append, List.length_cons, List.length_nil]
          omega
        · rw [if_neg hlt, if_pos hden]
          simp only [List.length_append, List.length_cons, List.length_nil]
          omega
  · intro s hmem hs habs
    apply List.ne_nil_of_mem (a := "Invalid file path: must be relative, not absolute")
    unfold validateAddonInfo
    refine List.mem_append_right _ ?_
    rw [List.mem_flatten]
    refine ⟨filePathErrors (JsVal.vstr s), ?_, ?_⟩
    · refine List.mem_map_of_mem _ ?_
      rw [List.mem_filter]
      refine ⟨?_, by simpa [truthy] using hs⟩
      rw [List.mem_filterMap]
      exact ⟨some (JsVal.vstr s), hmem, rfl⟩
    · simp [filePathErrors, habs]
  · intro r hr
    have hmap : loadModulesOfType env (discoverModules fs root ty)
        = (processOrder (discoverModules fs root ty)).map (loadModuleTimed env) := by
      unfold loadModulesOfType processOrder
      rw [List.map_flatMap]
    rw [hmap] at hr
    obtain ⟨mm, hmm, hre⟩ := List.mem_map.mp hr
    exact ⟨mm, (processOrder_perm _).mem_iff.mp hmm, hre.symm⟩

/-- A file system whose single candidate module has no `author` field. -/
def c7fs : FileSys :=
  { dirs := [["addons"], ["addons", "X"]],
    files := [(["addons", "X", "addon.info"], ["addonfile: m.js"]),
              (["addons", "X", "m.js"], [])] }

/-- Witness for C7: the author-less descriptor fails validation, the
directory is excluded from discovery, and the discovery pass of that file
system returns nothing at all. -/
theorem c7_discovery_exclusions_witness :
    validateAddonInfo (parseInfo ["addonfile: m.js"]) ≠ [] ∧
    processModuleDirectory c7fs "X" ["addons", "X"] ["addons", "X", "addon.info"]
      .addon none none = none := by
  have h := c7_discovery_exclusions c7fs "X" ["addons", "X"]
    ["addons", "X", "addon.info"] .addon none none (parseInfo ["addonfile: m.js"])
    (fun _ => LoadOutcome.timedOut) ["addons"] (by decide)
  have hne := h.2.2.2.1 (by decide)
  exact ⟨hne, h.2.2.1 hne⟩

/-- The spec's scenario: a prefix handler `"confirm_"` at priority 10 from
module P and an exact handler `"confirm_42"` at priority 0 from module
Q. -/
def c5PfxRaw : RawHandler :=
  { type := .button, customId := "confirm_", matchType := .prefixType, handlerId := 0 }

/-- The exact handler of the C5 scenario. -/
def c5ExRaw : RawHandler :=
  { type := .button, customId := "confirm_42", matchType := .exact, handlerId := 1 }

/-- Registry after loading module P's batch. -/
def c5St1 : IRegistry := registerMany IRegistry.empty ([c5PfxRaw].map (stamp 10 "P"))

/-- Registry after loading module Q's batch as well. -/
def c5State : IRegistry := registerMany c5St1 ([c5ExRaw].map (stamp 0 "Q"))

/-- Behaviour: the prefix handler declines (returns false); the exact
handler reports handled. -/
def c5Beh : Nat → HOutcome := fun id => if id = 1 then .handled else .declined

/-- Witness for C5 on the spec's scenario: the button list holds the
priority-10 prefix handler first and the priority-0 exact handler second;
a click on `"confirm_42"` is offered to the prefix handler first, which
declines, and the exact handler then handles it. -/
theorem c5_dispatch_first_match_wins_witness :
    c5State .button = [stamp 10 "P" c5PfxRaw, stamp 0 "Q" c5ExRaw] ∧
    (c5State .button).Sorted (fun a b => a.priority ≥ b.priority) ∧
    handleList (fun _ => none) c5Beh "confirm_42" (c5State .button)
      = handleList (fun _ => none) c5Beh "confirm_42" [stamp 0 "Q" c5ExRaw] ∧
    handle c5State (fun _ => none) c5Beh .button "confirm_42" = true := by
  have hre : ReachableI c5State :=
    ReachableI.stepOk 0 "Q" [c5ExRaw]
      (ReachableI.stepOk 10 "P" [c5PfxRaw] ReachableI.empty rfl) rfl
  have h := c5_dispatch_first_match_wins c5State hre (fun _ => none) c5Beh .button
    "confirm_42" "confirm_" (stamp 10 "P" c5PfxRaw) [stamp 0 "Q" c5ExRaw]
  have hlist : c5State .button = [stamp 10 "P" c5PfxRaw, stamp 0 "Q" c5ExRaw] := by decide
  refine ⟨hlist, h.1, ?_, ?_⟩
  · rw [hlist]
    exact h.2.2.2.2.2.2.1 (by decide) (by decide)
  · exact (h.2.2.2.2.2.2.2.2).mpr
      ⟨stamp 0 "Q" c5ExRaw, by rw [hlist]; simp, by decide, by decide⟩

/-- **C8.** The descriptor parser ignores blank lines and lines whose
first non-whitespace character is `#`; it splits each remaining line on
the first colon only (values containing `://` survive intact), trims both
key and value, coerces the case-insensitive literals `"true"`/`"false"`
to booleans for any key, coerces the value of the key `priority` to a
number when it parses as numeric (`priority: 10` yields the number 10,
not the string `"10"`), and otherwise keeps the value as a trimmed
string. -/
theorem c8_parser_rules (info : Info) (raw : String) (k v : String) (q : ℚ) :
    -- blank lines (whitespace only) are ignored
    (trimS raw = "" → parseLine info raw = info) ∧
    -- lines whose first non-whitespace character is '#' are ignored
    (startsWithS (trimS raw) "#" = true → parseLine info raw = info) ∧
    -- every other `key:value` line splits on the FIRST colon only, with
    -- key and value trimmed and the value coerced
    ((':' ∉ k.data) → k ≠ "" → trimS raw = k ++ ":" ++ v →
      startsWithS (k ++ ":" ++ v) "#" = false →
      parseLine info raw = info ++ [(trimS k, coerceValue (trimS k) (trimS v))]) ∧
    -- `"true"`/`"false"` (case-insensitive) coerce to booleans for any key
    (toLowerS v = "true" → coerceValue k v = .vbool true) ∧
    (toLowerS v = "false" → coerceValue k v = .vbool false) ∧
    -- the key `priority` coerces a numeric value to a number
    (toLowerS v ≠ "true" → toLowerS v ≠ "false" → jsNumOpt v = some q →
      coerceValue "priority" v = .vnum q) ∧
    -- any other value stays a string
    (toLowerS v ≠ "true" → toLowerS v ≠ "false" → k ≠ "priority" →
      coerceValue k v = .vstr v) ∧
    (toLowerS v ≠ "true" → toLowerS v ≠ "false" → jsNumOpt v = none →
      coerceValue k v = .vstr v) ∧
    -- round trips: `priority: 10` is the number 10; a URL value survives
    getField (parseInfo ["priority: 10"]) "priority" = some (.vnum 10) ∧
    getField (parseInfo ["homepage: https://x.y/z"]) "homepage"
      = some (.vstr "https://x.y/z") := by
  refine ⟨?_, ?_, ?_, ?_, ?_, ?_, ?_, ?_, ?_, ?_⟩
  · intro h
    unfold parseLine
    rw [h]
    simp
  · intro h
    unfold parseLine
    by_cases h0 : trimS raw = ""
    · rw [h0]; simp
    · rw [if_neg h0, h]; simp
  · exact fun hk hk0 hline hc => parseLine_split info raw k v hk hk0 hline hc
  · intro h; unfold coerceValue; rw [h]; simp
  · intro h
    unfold coerceValue
    rw [h]
    simp
  · intro h1 h2 h3
    unfold coerceValue
    rw [if_neg (by simpa using h1), if_neg (by simpa using h2), if_pos rfl, h3]
  · intro h1 h2 h3
    unfold coerceValue
    rw [if_neg (by simpa using h1), if_neg (by simpa using h2), if_neg h3]
  · intro h1 h2 h3
    unfold coerceValue
    rw [if_neg (by simpa using h1), if_neg (by simpa using h2)]
    split
    · rw [h3]
    · rfl
  · decide
  · decide

/-- Witness for C8 at concrete inputs: the line `"priority: 10"` appended
to an empty record, with every hypothesis discharged concretely. -/
theorem c8_parser_rules_witness :
    parseLine [] "priority: 10" = [("priority", JsVal.vnum 10)] ∧
    coerceValue "enabled" "TRUE" = .vbool true := by
  have h := c8_parser_rules [] "priority: 10" "priority" " 10" 10
  refine ⟨?_, ?_⟩
  · have h3 := h.2.2.1 (by decide) (by decide) (by decide) (by decide)
    rw [h3]
    decide
  · exact (c8_parser_rules [] "" "enabled" "TRUE" 0).2.2.2.1 (by decide)

/-! ## C6: duplicate directory paths in one discovery pass -/

/-- A fold preserves any invariant its step preserves. -/
theorem foldl_invariant {α σ : Type _} (P : σ → Prop) (f : σ → α → σ)
    (hstep : ∀ s a, P s → P (f s a)) (l : List α) (s : σ) (hs : P s) :
    P (l.foldl f s) := by
  induction l generalizing s with
  | nil => exact hs
  | cons x xs ih => exact ih _ (hstep s x hs)

/-- Main-loop invariant: every discovered module's directory path has been
recorded in the processed-paths set. -/
def DiscPathInv (st : DiscState) : Prop :=
  ∀ m ∈ st.discovered, m.dirPath ∈ st.processed

theorem discoverOne_pathInv (fs : FileSys) (ty : ModuleType) (st : DiscState)
    (dn : String) (dp ip : FPath) (cr : Option String) (h : DiscPathInv st) :
    DiscPathInv (discoverOne fs ty st dn dp ip cr) := by
  unfold discoverOne
  split
  next m0 _ =>
    intro m hm
    rcases List.mem_append.mp hm with hm | hm
    · rcases List.mem_append.mp hm with hm | hm
      · exact List.mem_append_left _ (List.mem_append_left _ (h m hm))
      · rcases List.mem_singleton.mp hm with rfl
        exact List.mem_append_left _ (List.mem_append_right _ (List.mem_singleton.mpr rfl))
    · exact List.mem_append_right _ (List.mem_map_of_mem _ hm)
  · exact h

theorem discoverEntry_pathInv (fs : FileSys) (ty : ModuleType) (root : FPath)
    (st : DiscState) (name : String) (h : DiscPathInv st) :
    DiscPathInv (discoverEntry fs ty root st name) := by
  unfold discoverEntry
  dsimp only
  split
  · exact discoverOne_pathInv fs ty st name _ _ none h
  · refine foldl_invariant DiscPathInv _ (fun s a hs => ?_) _ st h
    dsimp only
    split
    · exact discoverOne_pathInv fs ty s a _ _ _ hs
    · exact hs

theorem mainDiscovery_pathInv (fs : FileSys) (root : FPath) (ty : ModuleType) :
    DiscPathInv (mainDiscovery fs root ty) := by
  unfold mainDiscovery
  exact foldl_invariant DiscPathInv _
    (fun s a hs => discoverEntry_pathInv fs ty root s a hs) _ _ (by intro m hm; cases hm)

/-- Rescan invariant, relative to the initial processed-paths set `P0`:
found extensions sit at recorded paths, their paths are pairwise distinct
and fresh with respect to `P0`, and `P0` stays recorded. -/
def ScanInv (P0 : List FPath) (st : ScanState) : Prop :=
  (∀ m ∈ st.found, m.dirPath ∈ st.processed) ∧
  (st.found.map (fun m => m.dirPath)).Nodup ∧
  (∀ m ∈ st.found, m.dirPath ∉ P0) ∧
  (∀ p ∈ P0, p ∈ st.processed)

theorem scanExtDir_inv (fs : FileSys) (ty : ModuleType) (cr : Option String)
    (dp ep : FPath) (P0 : List FPath) (st : ScanState) (name : String)
    (h : ScanInv P0 st) : ScanInv P0 (scanExtDir fs ty cr dp ep st name) := by
  obtain ⟨h1, h2, h3, h4⟩ := h
  unfold scanExtDir
  dsimp only
  split
  · exact ⟨h1, h2, h3, h4⟩
  next hc =>
    have hfresh : (ep ++ [name]) ∉ st.processed := by simpa using hc
    have hext : ScanInv P0 { st with processed := st.processed ++ [ep ++ [name]] } :=
      ⟨fun m hm => List.mem_append_left _ (h1 m hm), h2, h3,
        fun p hp => List.mem_append_left _ (h4 p hp)⟩
    split
    · exact hext
    · split
      next m0 hm0 =>
        have hdp : m0.dirPath = ep ++ [name] := (processModuleDirectory_valid hm0).2
        obtain ⟨e1, e2, e3, e4⟩ := hext
        refine ⟨?_, ?_, ?_, e4⟩
        · intro m hm
          rcases List.mem_append.mp hm with hm | hm
          · exact e1 m hm
          · rcases List.mem_singleton.mp hm with rfl
            exact List.mem_append_right _ (by simpa using hdp)
        · rw [List.map_append]
          rw [List.nodup_append]
          refine ⟨h2, List.nodup_singleton _, ?_⟩
          intro p hp hp'
          simp only [List.map_cons, List.map_nil, List.mem_singleton] at hp'
          obtain ⟨m, hm, hmp⟩ := List.mem_map.mp hp
          apply hfresh
          rw [← hdp, ← hp', ← hmp]
          exact h1 m hm
        · intro m hm
          rcases List.mem_append.mp hm with hm | hm
          · exact h3 m hm
          · rcases List.mem_singleton.mp hm with rfl
            intro hmem
            exact hfresh (by rw [← hdp] at *; exact h4 _ (by simpa using hmem))
      · exact hext

theorem scanParentDir_inv (fs : FileSys) (ty : ModuleType) (P0 : List FPath)
    (st : ScanState) (entry : FPath × Option String) (h : ScanInv P0 st) :
    ScanInv P0 (scanParentDir fs ty st entry) := by
  unfold scanParentDir
  dsimp only
  split
  · exact h
  · split
    · exact h
    · split
      · split
        · exact h
        · split
          · exact h
          · exact foldl_invariant (ScanInv P0) _
              (fun s a hs => scanExtDir_inv fs ty entry.2 entry.1 _ P0 s a hs) _ st h
      · exact h

theorem discoverAllExtensions_inv (fs : FileSys) (root : FPath) (ty : ModuleType)
    (P0 : List FPath) : ScanInv P0 (discoverAllExtensions fs root ty P0) := by
  unfold discoverAllExtensions
  exact foldl_invariant (ScanInv P0) _
    (fun s e hs => scanParentDir_inv fs ty P0 s e hs) _ _
    ⟨fun m hm => absurd hm (List.not_mem_nil m), List.nodup_nil,
      fun m hm => absurd hm (List.not_mem_nil m), fun p hp => hp⟩

/-- A root with a single addon `A` whose `extensions` field escapes its
own directory (`".."`): the extensions directory resolves back to the
addons root, so the per-parent extension scan rediscovers `A` itself. -/
def c6fs : FileSys :=
  { dirs := [["addons"], ["addons", "A"]],
    files := [(["addons", "A", "addon.info"],
                ["author: x", "addonfile: main.js", "extensions: .."]),
              (["addons", "A", "main.js"], [])] }

/-- Counterexample to C6: one discovery pass over `c6fs` returns TWO
entries with the same directory path `addons/A` — the module itself and
its rediscovery by the per-parent extension scan, which never consults
the processed-paths set. -/
theorem c6_counterexample :
    (discoverModules c6fs ["addons"] ModuleType.addon).map (fun m => m.dirPath)
      = [["addons", "A"], ["addons", "A"]] ∧
    ¬ ((discoverModules c6fs ["addons"] ModuleType.addon).map
        (fun m => m.dirPath)).Nodup := by
  refine ⟨by decide, ?_⟩
  intro h
  rw [(by decide : (discoverModules c6fs ["addons"] ModuleType.addon).map
      (fun m => m.dirPath) = [["addons", "A"], ["addons", "A"]])] at h
  exact absurd h (by decide)

/-- **C6 (amended).** Within one discovery pass, the processed-paths
deduplication holds exactly where the processed-paths set is consulted:
every main-pass module's directory path is recorded in the processed set;
the full-tree extension rescan returns pairwise-distinct directory paths,
none of which was processed by the main pass; hence no rescan entry ever
duplicates a main-pass entry.  Duplicate directory paths CAN still arise
inside the main pass itself, because the per-parent extension scan
(`discoverExtensions`) bypasses the processed-paths set
(`c6_counterexample`). -/
theorem c6_rescan_dedup_amended (fs : FileSys) (root : FPath) (ty : ModuleType) :
    (∀ m ∈ (mainDiscovery fs root ty).discovered,
        m.dirPath ∈ (mainDiscovery fs root ty).processed) ∧
    ((discoverAllExtensions fs root ty
        (mainDiscovery fs root ty).processed).found.map (fun m => m.dirPath)).Nodup ∧
    (∀ m ∈ (discoverAllExtensions fs root ty
        (mainDiscovery fs root ty).processed).found,
        m.dirPath ∉ (mainDiscovery fs root ty).processed) ∧
    (∀ m1 ∈ (mainDiscovery fs root ty).discovered,
      ∀ m2 ∈ (discoverAllExtensions fs root ty
          (mainDiscovery fs root ty).processed).found,
        m1.dirPath ≠ m2.dirPath) := by
  have hmain := mainDiscovery_pathInv fs root ty
  have hscan := discoverAllExtensions_inv fs root ty (mainDiscovery fs root ty).processed
  refine ⟨hmain, hscan.2.1, hscan.2.2.1, ?_⟩
  intro m1 h1 m2 h2 he
  exact hscan.2.2.1 m2 h2 (he ▸ hmain m1 h1)

/-- A root whose parent directory `P` is itself rejected as a module (no
entry file) but declares an `extensions` directory holding a valid addon
`E`: only the full-tree rescan finds `E`. -/
def c6fs2 : FileSys :=
  { dirs := [["addons"], ["addons", "P"], ["addons", "P", "ext"],
             ["addons", "P", "ext", "E"]],
    files := [(["addons", "P", "addon.info"], ["author: x", "extensions: ext"]),
              (["addons", "P", "ext", "E", "addon.info"],
                ["author: y", "addonfile: e.js"]),
              (["addons", "P", "ext", "E", "e.js"], [])] }

/-- The extension module the rescan finds in `c6fs2`. -/
def c6ExtMod : DiscoveredModule :=
  { dirName := "E",
    dirPath := ["addons", "P", "ext", "E"],
    info := [("author", JsVal.vstr "y"), ("addonfile", JsVal.vstr "e.js")],
    filePath := ["addons", "P", "ext", "E", "e.js"],
    creator := none,
    type := ModuleType.addon,
    parentModule := some "P",
    isExtension := true }

/-- Witness for the amended C6 on `c6fs2`: the rescan-found extension `E`
was not processed by the main pass, so it duplicates nothing. -/
theorem c6_rescan_dedup_amended_witness :
    c6ExtMod.dirPath ∉ (mainDiscovery c6fs2 ["addons"] ModuleType.addon).processed :=
  (c6_rescan_dedup_amended c6fs2 ["addons"] ModuleType.addon).2.2.1 c6ExtMod (by decide)

end CoreBot
